import Mathlib

/-!
Verification of the itinerary scheduling engine of the voyager-ai repository
(`app/agents/itinerary_agent.py`).

The Python code is shallowly embedded:
* times and distances (Python floats that the scheduler only ever combines by
  `+`, `*`, `/`, `%`, comparisons, `int(...)` truncation) become `ℚ`;
* Python dicts for attractions / restaurants become the `Item` structure whose
  optional keys become `Option` fields;
* the external OpenRouteService calls (`matrix_distances`) become an oracle
  parameter `matrix : Coord → Coord → Option Travel`; a `none` result covers a
  thrown exception, an empty result list, and a non-`"OK"` status uniformly;
* formatted time strings are produced by a faithful embedding of
  `_format_time_with_overflow`; the simulator stores the rational clock value
  that the Python code feeds to that formatter (`attraction['scheduled_time'] =
  self._format_time_with_overflow(current_time)`), and the formatter is applied
  at the output boundary, which is observationally the same since the formatter
  is a pure function of the clock value.
-/

/-- Python `int(x)` on a float: truncation toward zero. -/
def pyInt (q : ℚ) : ℤ := if 0 ≤ q then ⌊q⌋ else ⌈q⌉

/-- Python `x % b` on floats for `b > 0`: result carries the divisor's sign,
`a % b = a - b * floor (a / b)`. -/
def pyMod (a b : ℚ) : ℚ := a - b * ⌊a / b⌋

/-- Python's `f"{i:02d}"`: pad with a leading zero to width 2. -/
def pad2 (i : ℤ) : String :=
  if 0 ≤ i ∧ i < 10 then "0" ++ toString i else toString i

/-- `ItineraryAgent._format_time_with_overflow` (itinerary_agent.py:276-286). -/
def _format_time_with_overflow (time_hours : ℚ) : String :=
  let time_minutes := pyInt (pyMod time_hours 1 * 60)
  if 24 ≤ time_hours then
    let days_ahead := pyInt (time_hours / 24)
    let display_hours := pyInt (pyMod time_hours 24)
    "Day+" ++ toString days_ahead ++ " " ++ pad2 display_hours ++ ":" ++ pad2 time_minutes
  else
    pad2 (pyInt time_hours) ++ ":" ++ pad2 time_minutes

/-- The numeric components `(days_ahead, display_hours, minutes)` that
`_format_time_with_overflow` prints (with `days_ahead = 0` for the
no-overflow branch, where no day component is printed). -/
def formatParts (time_hours : ℚ) : ℤ × ℤ × ℤ :=
  let time_minutes := pyInt (pyMod time_hours 1 * 60)
  if 24 ≤ time_hours then
    (pyInt (time_hours / 24), pyInt (pyMod time_hours 24), time_minutes)
  else
    (0, pyInt time_hours, time_minutes)

/-- Reading a formatted `"Day+N HH:MM"` / `"HH:MM"` timestamp back as an
absolute count of hours since the day's 09:00 start axis:
`24*N + HH + MM/60`. -/
def absHoursOfTime (t : ℚ) : ℚ :=
  let p := formatParts t
  24 * (p.1 : ℚ) + (p.2.1 : ℚ) + (p.2.2 : ℚ) / 60

theorem format_eq_renderParts (t : ℚ) :
    _format_time_with_overflow t =
      (if 24 ≤ t then
        "Day+" ++ toString (formatParts t).1 ++ " " ++ pad2 (formatParts t).2.1
          ++ ":" ++ pad2 (formatParts t).2.2
      else pad2 (formatParts t).2.1 ++ ":" ++ pad2 (formatParts t).2.2) := by
  unfold _format_time_with_overflow formatParts
  by_cases h : 24 ≤ t <;> simp [h]

example : _format_time_with_overflow (24.75 : ℚ) = "Day+1 00:45" := by
  norm_num [_format_time_with_overflow, pyInt, pyMod, pad2]; rfl
example : _format_time_with_overflow (9.5 : ℚ) = "09:30" := by
  norm_num [_format_time_with_overflow, pyInt, pyMod, pad2]; rfl

/-! ## Duration parsing (`_parse_duration`, itinerary_agent.py:239-250)

Python string operations are embedded at the character-list level:
`str.split()` (whitespace tokenisation discarding empty tokens),
`token.split('-')[0]` (the characters strictly before the first `'-'`),
`str.lower()`, substring membership (`'half' in s`), and `float(...)`
parsing of plain decimal literals (optional single sign, digits, optional
fraction part; scientific notation, `inf`/`nan` and digit underscores are
outside the fragment this scheduler ever receives and are treated as
unparsable, which lands in the same `except` default as in the source). -/

/-- Does the pattern occur as a contiguous sublist? (Python `pat in s`.) -/
def matchesAt : List Char → List Char → Bool
  | _, [] => true
  | [], _ :: _ => false
  | a :: as, b :: bs => a == b && matchesAt as bs

def containsSubList : List Char → List Char → Bool
  | h, p =>
    matchesAt h p ||
      match h with
      | [] => false
      | _ :: t => containsSubList t p

/-- Magnitude part of Python `float(...)` on a plain decimal literal:
digits, optionally followed by `.` and further digits (at least one digit
overall). Always nonnegative. -/
def pyFloatMag (cs : List Char) : Option ℚ :=
  let intPart := cs.takeWhile (fun c => c.isDigit)
  let rest := cs.drop intPart.length
  let natVal : List Char → ℕ := fun l => l.foldl (fun acc c => 10 * acc + (c.toNat - '0'.toNat)) 0
  match rest with
  | [] => if intPart.isEmpty then none else some (natVal intPart)
  | '.' :: fracPart =>
      if fracPart.all (fun c => c.isDigit) ∧ ¬(intPart.isEmpty ∧ fracPart.isEmpty) then
        some ((natVal intPart : ℚ) + (natVal fracPart : ℚ) / (10 : ℚ) ^ fracPart.length)
      else none
  | _ => none

/-- Python `float(...)` on a token (no interior whitespace): optional sign
then a decimal magnitude. -/
def pyFloat? (cs : List Char) : Option ℚ :=
  match cs with
  | '+' :: rest => pyFloatMag rest
  | '-' :: rest => (pyFloatMag rest).map (fun q => -q)
  | _ => pyFloatMag cs

/-- Python `s.split()`: whitespace-delimited tokens, empties discarded. -/
def pySplitWs (cs : List Char) : List (List Char) :=
  ((cs.splitOnP (fun c => c.isWhitespace)).map id).filter (fun t => ¬t.isEmpty)

/-- `ItineraryAgent._parse_duration` (itinerary_agent.py:239-250).  `try:`
branches that raise (`[0]` on an empty token list, `float` on a non-numeric
string) fall into the `except` default of 2 hours. -/
def _parse_duration (duration_str : String) : ℚ :=
  let cs := duration_str.toList
  let lowered := cs.map Char.toLower
  if containsSubList lowered "half".toList then 4
  else if containsSubList lowered "full".toList then 8
  else
    match pySplitWs cs with
    | [] => 2
    | tok :: _ =>
        match pyFloat? (tok.takeWhile (fun c => c ≠ '-')) with
        | some q => q
        | none => 2

example : _parse_duration "half day" = 4 := by decide
example : _parse_duration "2-3 hours" = 2 := by decide
example : _parse_duration "garbage" = 2 := by decide
example : _parse_duration "2.5 hours" = 5/2 := by
  simp +decide [_parse_duration, pySplitWs, pyFloat?, pyFloatMag]; norm_num
example : _parse_duration "" = 2 := by decide

/-! ## Data model

An `Item` embeds the Python dicts that flow through the scheduler: attraction
dicts and restaurant dicts.  Optional dict keys become `Option` fields; a key
the pipeline never populated corresponds to `none` / `false`. -/

/-- A geographic coordinate `(lat, lng)` as the `(float, float)` tuples the
code passes around.  -/
abbrev Coord : Type := ℚ × ℚ

/-- A `travel_to_next` record: `{'distance_km': .., 'duration_h': ..}`.  The
oracle for `matrix_distances` returns this for a successful `status == 'OK'`
lookup. -/
structure Travel where
  distance_km : ℚ
  duration_h : ℚ
deriving DecidableEq, Repr

/-- A `distance_from_current` record attached to a selected restaurant:
`{'distance_km': .., 'duration_minutes': int(duration_h * 60)}`. -/
structure DistInfo where
  distance_km : ℚ
  duration_minutes : ℤ
deriving DecidableEq, Repr

/-- An attraction or restaurant dict. -/
structure Item where
  name : String
  duration : Option String := none
  coordinates : Option Coord := none
  meal_type : Option String := none
  travel_to_next : Option Travel := none
  scheduled_time : Option ℚ := none
  is_meal : Bool := false
  meal_type_scheduled : Option String := none
  distance_from_current : Option DistInfo := none
deriving DecidableEq, Repr

instance : Inhabited Item := ⟨{ name := "" }⟩

/-- The external `matrix_distances` call (services/ors_api.py), one origin to
one destination, `profile="driving-car"`: `none` models an exception, an empty
result, or a non-`'OK'` status; `some r` models a successful lookup. -/
abbrev GeoMatrix : Type := Coord → Coord → Option Travel

/-- `(a['coordinates']['lat'], a['coordinates']['lng'])` — only ever read on
items whose `coordinates` key is populated. -/
def coordOf (a : Item) : Coord := a.coordinates.getD (0, 0)

/-! ## `_calculate_travel_times` (itinerary_agent.py:103-128) -/

/-- One iteration of the `for i in range(len(attractions) - 1)` loop: attach
`travel_to_next` to `a` from the lookup `a → b`, unless the lookup fails or
the distance exceeds `MAX_DAY_TRIP_DISTANCE = 100` km (then `a` is returned
unchanged). -/
def travelPair (matrix : GeoMatrix) (a b : Item) : Item :=
  match a.coordinates, b.coordinates with
  | some ca, some cb =>
      (match matrix ca cb with
       | some r =>
           if 100 < r.distance_km then a
           else { a with travel_to_next := some ⟨r.distance_km, r.duration_h⟩ }
       | none => a)
  | _, _ => a

/-- `ItineraryAgent._calculate_travel_times`: the loop mutates element `i`
using element `i + 1`, so it is a pairwise map along the list. -/
def _calculate_travel_times (matrix : GeoMatrix) : List Item → List Item
  | [] => []
  | [a] => [a]
  | a :: b :: rest => travelPair matrix a b :: _calculate_travel_times matrix (b :: rest)

/-! ## `_find_nearest_restaurant` (itinerary_agent.py:195-237) -/

/-- The copy of a chosen restaurant with its `distance_from_current` record,
as built at itinerary_agent.py:229-233. -/
def withDist (r : Item) (res : Travel) : Item :=
  { r with distance_from_current := some (DistInfo.mk res.distance_km (pyInt (res.duration_h * 60))) }

/-- The `for restaurant in matching_restaurants` selection loop: running
`min_distance` starts at infinity (modelled by `none`), strict `<` keeps the
earliest minimum, failed lookups are skipped. -/
def nearestLoop (matrix : GeoMatrix) (location : Coord) :
    List Item → Option ℚ × Option Item → Option ℚ × Option Item
  | [], st => st
  | r :: rest, st =>
      nearestLoop matrix location rest
        (match matrix location (coordOf r) with
         | some res =>
             (match st.1 with
              | none => (some res.distance_km, some (withDist r res))
              | some m =>
                  if res.distance_km < m then (some res.distance_km, some (withDist r res))
                  else st)
         | none => st)

/-- `ItineraryAgent._find_nearest_restaurant`. -/
def _find_nearest_restaurant (matrix : GeoMatrix) (location : Coord)
    (restaurants : List Item) (meal_type : String) : Option Item :=
  let matching := restaurants.filter
    (fun r => r.meal_type == some meal_type && r.coordinates.isSome)
  let matching :=
    if matching.isEmpty then restaurants.filter (fun r => r.coordinates.isSome)
    else matching
  if matching.isEmpty then none
  else (nearestLoop matrix location matching (none, none)).2

/-! ## `_calculate_travel_from_restaurant` (itinerary_agent.py:252-274) -/

def _calculate_travel_from_restaurant (matrix : GeoMatrix)
    (restaurant_coords next_attraction_coords : Coord) : Option Travel :=
  match matrix restaurant_coords next_attraction_coords with
  | some r =>
      if 100 < r.distance_km then none
      else some ⟨r.distance_km, r.duration_h⟩
  | none => none

/-! ## `_integrate_dining` (itinerary_agent.py:288-392)

The per-day walk keeps `day_schedule` (the growing activity list), the clock
`current_time`, and the trip-wide `used_restaurants` set (a list of names).
The `overflow_warning` flag only controls a log line and has no effect on the
produced data, so it is not part of the state. -/

/-- `any(a.get('is_meal') and a.get('meal_type_scheduled') == mt for a in day_schedule)`. -/
def hasMealType (day_schedule : List Item) (mt : String) : Bool :=
  day_schedule.any (fun a => a.is_meal && a.meal_type_scheduled == some mt)

/-- `is_lunch_time` (itinerary_agent.py:333). -/
def isLunchTime (effective_time : ℚ) (day_schedule : List Item) : Bool :=
  decide (11.5 ≤ effective_time ∧ effective_time ≤ 14)
    && !hasMealType day_schedule "lunch"

/-- `is_dinner_time` (itinerary_agent.py:334); `isLast` is `idx == len(day_attractions) - 1`. -/
def isDinnerTime (effective_time : ℚ) (isLast : Bool) (day_schedule : List Item) : Bool :=
  (decide (17.5 ≤ effective_time ∧ effective_time ≤ 20) || isLast)
    && decide (17 < effective_time)
    && !hasMealType day_schedule "dinner"

/-- Day-simulation state: `day_schedule`, `current_time`, `used_restaurants`. -/
structure SimState where
  sched : List Item
  t : ℚ
  used : List String
deriving DecidableEq, Repr

/-- The meal-insertion block (itinerary_agent.py:331-388), entered after the
current attraction has been appended and the clock advanced.  `a` is the
current attraction, `next?` the following stop of the (travel-annotated) day
list if any. -/
def maybeInsertMeal (matrix : GeoMatrix) (restaurants : List Item) (acc : Option Coord)
    (a : Item) (isLast : Bool) (next? : Option Item) (st : SimState) : SimState :=
  let effective_time := pyMod st.t 24
  let isLunch := isLunchTime effective_time st.sched
  let isDinner := isDinnerTime effective_time isLast st.sched
  if isLunch || isDinner then
    let meal_type := if isLunch then "lunch" else "dinner"
    match a.coordinates.orElse (fun _ => acc) with
    | none => st
    | some current_loc =>
        let available := restaurants.filter (fun r => !st.used.contains r.name)
        match _find_nearest_restaurant matrix current_loc available meal_type with
        | none => st
        | some restaurant =>
            let t1 := st.t +
              (match restaurant.distance_from_current with
               | some d => (d.duration_minutes : ℚ) / 60
               | none => 0)
            let used1 := restaurant.name :: st.used
            let r1 := { restaurant with
              is_meal := true
              meal_type_scheduled := some meal_type
              scheduled_time := some t1 }
            let r2 :=
              match next? with
              | some nxt =>
                  (match nxt.coordinates, r1.coordinates with
                   | some next_coords, some rest_coords =>
                       (match _calculate_travel_from_restaurant matrix rest_coords next_coords with
                        | some tr => { r1 with travel_to_next := some tr }
                        | none => r1)
                   | _, _ => r1)
              | none => r1
            let t2 := t1 + 1 + 0.25
            let t3 := t2 +
              (match r2.travel_to_next with
               | some tr => if tr.duration_h ≤ 2 then tr.duration_h else 0
               | none => 0)
            ⟨st.sched ++ [r2], t3, used1⟩
  else st

/-- One iteration of the `for idx, attraction in enumerate(day_attractions)`
loop (itinerary_agent.py:308-388): record the stop at the current clock,
advance by parsed duration + 0.25 h buffer, apply its `travel_to_next` iff
the travel takes at most 2 h, then run the meal-insertion block. -/
def dineStep (matrix : GeoMatrix) (restaurants : List Item) (acc : Option Coord)
    (a : Item) (isLast : Bool) (next? : Option Item) (st : SimState) : SimState :=
  let a1 := { a with scheduled_time := some st.t }
  let sched1 := st.sched ++ [a1]
  let t1 := st.t + _parse_duration (a.duration.getD "2 hours") + 0.25
  let t2 := t1 +
    (match a.travel_to_next with
     | some tr => if 2 < tr.duration_h then 0 else tr.duration_h
     | none => 0)
  maybeInsertMeal matrix restaurants acc a isLast next? ⟨sched1, t2, st.used⟩

/-- The whole per-day loop over the ordered, travel-annotated stop list. -/
def integrateDay (matrix : GeoMatrix) (restaurants : List Item) (acc : Option Coord) :
    List Item → SimState → SimState
  | [], st => st
  | a :: rest, st =>
      integrateDay matrix restaurants acc rest
        (dineStep matrix restaurants acc a rest.isEmpty rest.head? st)

/-- `ItineraryAgent._integrate_dining`: per day, annotate travel times, then
walk the day with the clock starting at 9 and the trip-wide used set carried
across days. -/
def _integrate_dining (matrix : GeoMatrix) (daily_attractions : List (List Item))
    (restaurants : List Item) (acc : Option Coord) : List (List Item) :=
  (daily_attractions.foldl
    (fun (accu : List (List Item) × List String) day =>
      let day1 := _calculate_travel_times matrix day
      let st := integrateDay matrix restaurants acc day1 ⟨[], 9, accu.2⟩
      (accu.1 ++ [st.sched], st.used))
    ([], [])).1

/-! ## `_optimize_daily_routes` (itinerary_agent.py:157-193)

The source keys the greedy choice by `self._haversine_distance(current_loc,
...)`.  The distance kernel is a pure numeric function of two coordinates, so
it is a parameter `dist` here (the haversine formula itself lives on real
trigonometry, outside the rational fragment; every property below holds for
the source's instantiation because it holds for every kernel). -/

/-- The `key=lambda a: self._haversine_distance(current_loc, (a['coordinates']['lat'],
a['coordinates']['lng']))` of the `min` call. -/
def keyDist (dist : Coord → Coord → ℚ) (loc : Coord) (a : Item) : ℚ :=
  dist loc (coordOf a)

/-- Python `min(remaining, key=d)` together with `remaining.remove(min)`:
returns the earliest element attaining the minimum key and the list with
that occurrence removed; `none` on an empty list. -/
def pickNearest (d : Item → ℚ) : List Item → Option (Item × List Item)
  | [] => none
  | a :: rest =>
      match pickNearest d rest with
      | none => some (a, [])
      | some (b, rest1) => if d b < d a then some (b, a :: rest1) else some (a, rest)

/-- The `while remaining:` greedy nearest-neighbour loop; the fuel is the
length of the remaining list. -/
def nnLoop (dist : Coord → Coord → ℚ) : ℕ → Coord → List Item → List Item
  | 0, _, _ => []
  | n + 1, loc, remaining =>
      match pickNearest (keyDist dist loc) remaining with
      | none => []
      | some (b, rest) => b :: nnLoop dist n (coordOf b) rest

/-- The per-day body of `_optimize_daily_routes`. -/
def orderStops (dist : Coord → Coord → ℚ) (start_location : Option Coord)
    (day_attractions : List Item) : List Item :=
  if day_attractions.length ≤ 2 then day_attractions
  else
    let geocoded := day_attractions.filter (fun a => a.coordinates.isSome)
    let non_geocoded := day_attractions.filter (fun a => !a.coordinates.isSome)
    if geocoded.length ≤ 2 then day_attractions
    else
      let current_loc := start_location.getD (coordOf geocoded.headI)
      nnLoop dist geocoded.length current_loc geocoded ++ non_geocoded

/-- `ItineraryAgent._optimize_daily_routes` over all day buckets. -/
def _optimize_daily_routes (dist : Coord → Coord → ℚ)
    (daily_groups : List (List Item)) (start_location : Option Coord) : List (List Item) :=
  daily_groups.map (orderStops dist start_location)

/-! ## Day-bucket split in `create_schedule` (itinerary_agent.py:438-445) -/

/-- Python list slicing `l[s:e]` for nonnegative bounds (out-of-range bounds
clamp). -/
def pySlice {α : Type} (l : List α) (s e : ℕ) : List α := (l.take e).drop s

/-- Step 4 of `create_schedule`: `per_day = max(1, len(attractions) // days)`;
each of the first `days - 1` buckets is the next `per_day`-slice, the last
bucket runs to the end of the list. -/
def splitDays {α : Type} (attractions : List α) (days : ℕ) : List (List α) :=
  let per_day := max 1 (attractions.length / days)
  (List.range days).map (fun day =>
    pySlice attractions (day * per_day)
      (if day < days - 1 then day * per_day + per_day else attractions.length))

/-! ## Day start/end times in `_generate_complete_schedule`
(itinerary_agent.py:567-576)

The activity dict built for a meal carries `"time": scheduled_time` (default
`'12:00'`, i.e. clock value 12) and the fixed `"duration": "1 hour"`; an
attraction activity carries `"time": scheduled_time` (default `'09:00'`) and
`"duration": item.get('duration', '2 hours')`. -/

/-- The clock value behind `activities[i]['time']`. -/
def activityTimeQ (i : Item) : ℚ :=
  i.scheduled_time.getD (if i.is_meal then 12 else 9)

/-- `activities[i]['duration']`. -/
def activityDurationStr (i : Item) : String :=
  if i.is_meal then "1 hour" else i.duration.getD "2 hours"

/-- Lines 567-576: `'Day+' in last_activity_time` holds exactly when the
formatted clock value is ≥ 24 (the formatter emits `Day+` only on that
branch, and the pipeline's clock values are ≥ 9); otherwise
`last_hour = int(last_activity_time.split(':')[0])` recovers `int(t)` of the
clock value `t` that was formatted, since the formatter prints exactly
`pad2 (pyInt t)` before the colon when `t < 24`. -/
def dayEndTime (day_items : List Item) : Option String :=
  match day_items.getLast? with
  | none => none
  | some lastItem =>
      let t := activityTimeQ lastItem
      some (if 24 ≤ t then "Beyond day boundary"
        else _format_time_with_overflow
          ((pyInt t : ℚ) + _parse_duration (activityDurationStr lastItem)))

/-! ## Claim C7: duration-parsing contract -/

/-- The specification's reading of duration parsing, stated from its own
words: 4 h for text containing "half", 8 h for text containing "full",
otherwise the leading numeric token — taking the lower bound of a range
written with a hyphen — and a 2 h default for unparsable text. -/
def parseDuration_spec (s : String) : ℚ :=
  let lowered := s.toList.map Char.toLower
  if containsSubList lowered "half".toList then 4
  else if containsSubList lowered "full".toList then 8
  else
    match (pySplitWs s.toList).head? with
    | some tok =>
        match pyFloat? (tok.takeWhile (fun c => c ≠ '-')) with
        | some q => q
        | none => 2
    | none => 2

/-- C7: for every input string `_parse_duration` follows the specification's
case analysis ("half" → 4, "full" → 8, leading numeric token with the lower
bound of a range, default 2), never failing; in particular
`_parse_duration "half day" = 4`, `_parse_duration "2-3 hours" = 2` and
`_parse_duration "garbage" = 2`.  (Totality is inherent: `_parse_duration`
is a total function.) -/
theorem C7_parse_duration_follows_spec :
    (∀ s : String, _parse_duration s = parseDuration_spec s)
    ∧ _parse_duration "half day" = 4
    ∧ _parse_duration "2-3 hours" = 2
    ∧ _parse_duration "garbage" = 2 := by
  refine ⟨fun s => ?_, by decide, by decide, by decide⟩
  unfold _parse_duration parseDuration_spec
  cases h : pySplitWs s.data <;> simp [h]

/-! ## Claim C10: the day-bucket split is an order-preserving partition -/

theorem splitDays_sliceJoin {α : Type} (l : List α) (p : ℕ) :
    ∀ m : ℕ, ((List.range m).map (fun k => pySlice l (k * p) (k * p + p))).flatten
      = l.take (m * p) := by
  intro m
  induction m with
  | zero => simp
  | succ n ih =>
      rw [show List.range (n + 1) = List.range n ++ [n] from List.range_succ n,
        List.map_append, List.flatten_append, ih]
      simp only [List.map_cons, List.map_nil, List.flatten_cons, List.flatten_nil,
        List.append_nil]
      rw [pySlice, List.drop_take, Nat.add_sub_cancel_left, ← List.take_add]
      ring_nf

/-- C10: with `d ≥ 1` days, `splitDays` returns exactly `d` buckets whose
concatenation is the input list (so every attraction lands in exactly one
bucket, in order); each of the first `d - 1` buckets is the next
`max 1 (n / d)` attractions, the last bucket is everything remaining, and
when `n < d` every bucket with index ≥ n is empty. -/
theorem C10_splitDays_partition {α : Type} (l : List α) (d : ℕ) (hd : 1 ≤ d) :
    (splitDays l d).length = d
    ∧ (splitDays l d).flatten = l
    ∧ (∀ k, k < d - 1 →
        (splitDays l d)[k]? =
          some ((l.drop (k * max 1 (l.length / d))).take (max 1 (l.length / d))))
    ∧ (splitDays l d)[d - 1]? = some (l.drop ((d - 1) * max 1 (l.length / d)))
    ∧ (∀ k, l.length ≤ k → k < d → (splitDays l d)[k]? = some []) := by
  have hp1 : 1 ≤ max 1 (l.length / d) := le_max_left _ _
  set p := max 1 (l.length / d) with hp
  have hp0 : 0 < p := hp1
  have hsplit : splitDays l d = (List.range d).map
      (fun day => pySlice l (day * p) (if day < d - 1 then day * p + p else l.length)) := rfl
  have hbucket : ∀ k, k < d →
      (splitDays l d)[k]? =
        some (pySlice l (k * p) (if k < d - 1 then k * p + p else l.length)) := by
    intro k hk
    rw [hsplit, List.getElem?_map, List.getElem?_range hk]
    rfl
  refine ⟨by rw [hsplit]; simp, ?_, ?_, ?_, ?_⟩
  · -- flattening the buckets gives back the input list
    rw [hsplit]
    obtain ⟨e, he⟩ : ∃ e, d = e + 1 := ⟨d - 1, (Nat.succ_pred_eq_of_pos hd).symm⟩
    subst he
    rw [show List.range (e + 1) = List.range e ++ [e] from List.range_succ e,
      List.map_append, List.flatten_append]
    have hmap : (List.range e).map
        (fun day => pySlice l (day * p) (if day < e + 1 - 1 then day * p + p else l.length))
        = (List.range e).map (fun k => pySlice l (k * p) (k * p + p)) := by
      refine List.map_congr_left (fun k hk => ?_)
      rw [List.mem_range] at hk
      rw [if_pos (show k < e + 1 - 1 by omega)]
    rw [hmap, splitDays_sliceJoin l p e]
    simp only [List.map_cons, List.map_nil, List.flatten_cons, List.flatten_nil,
      List.append_nil]
    rw [if_neg (by omega), pySlice, List.take_length, List.take_append_drop]
  · intro k hk
    rw [hbucket k (by omega), if_pos hk, pySlice, List.drop_take, Nat.add_sub_cancel_left]
  · rw [hbucket (d - 1) (by omega), if_neg (by omega), pySlice, List.take_length]
  · intro k hlen hk
    have hkp : l.length ≤ k * p := le_trans hlen (Nat.le_mul_of_pos_right k hp0)
    rcases Nat.lt_or_ge k (d - 1) with hlt | hge
    · have htk : (l.take (k * p + p)).length ≤ k * p := by
        rw [List.length_take]
        exact le_trans (min_le_right _ _) hkp
      rw [hbucket k hk, if_pos hlt, pySlice, List.drop_eq_nil_of_le htk]
    · have hke : k = d - 1 := by omega
      subst hke
      rw [hbucket (d - 1) hk, if_neg (by omega), pySlice, List.take_length,
        List.drop_eq_nil_of_le hkp]

/-! ## Shared concrete-evaluation lemmas -/

theorem pd_one_hour : _parse_duration "1 hour" = 1 := by
  simp +decide [_parse_duration, pySplitWs, pyFloat?, pyFloatMag]
theorem pd_two_hours : _parse_duration "2 hours" = 2 := by
  simp +decide [_parse_duration, pySplitWs, pyFloat?, pyFloatMag]
theorem pd_quarter_past_fourteen : _parse_duration "14.25 hours" = 57/4 := by
  simp +decide [_parse_duration, pySplitWs, pyFloat?, pyFloatMag]; norm_num
theorem pd_one_and_half : _parse_duration "1.5 hours" = 3/2 := by
  simp +decide [_parse_duration, pySplitWs, pyFloat?, pyFloatMag]; norm_num
theorem pd_four_three_quarters : _parse_duration "4.75 hours" = 19/4 := by
  simp +decide [_parse_duration, pySplitWs, pyFloat?, pyFloatMag]; norm_num
theorem pd_two_and_half : _parse_duration "2.5 hours" = 5/2 := by
  simp +decide [_parse_duration, pySplitWs, pyFloat?, pyFloatMag]; norm_num

theorem fmt_nine : _format_time_with_overflow 9 = "09:00" := by
  norm_num [_format_time_with_overflow, pyInt, pyMod, pad2]; rfl
theorem fmt_twelve : _format_time_with_overflow 12 = "12:00" := by
  norm_num [_format_time_with_overflow, pyInt, pyMod, pad2]; rfl
theorem fmt_half_past_23 : _format_time_with_overflow 23.5 = "23:30" := by
  norm_num [_format_time_with_overflow, pyInt, pyMod, pad2]; rfl
theorem fmt_overflow_0045 : _format_time_with_overflow 24.75 = "Day+1 00:45" := by
  norm_num [_format_time_with_overflow, pyInt, pyMod, pad2]; rfl
theorem fmt_1045 : _format_time_with_overflow 10.75 = "10:45" := by
  norm_num [_format_time_with_overflow, pyInt, pyMod, pad2]; rfl
theorem fmt_1245 : _format_time_with_overflow 12.75 = "12:45" := by
  norm_num [_format_time_with_overflow, pyInt, pyMod, pad2]; rfl

/-! ## Claim C5: meal-window eligibility -/

/-- The specification's "a lunch/dinner is already scheduled this day". -/
def scheduledMeal_spec (sched : List Item) (mt : String) : Prop :=
  ∃ a ∈ sched, a.is_meal = true ∧ a.meal_type_scheduled = some mt

/-- C5 (amended): at a meal decision point with `effective = cursor mod 24`
(the value `maybeInsertMeal` computes as `pyMod st.t 24`), lunch is eligible
iff `11.5 ≤ effective ≤ 14.0` — the upper bound is inclusive, not strict —
and no lunch is scheduled that day; dinner is eligible iff
(`17.5 ≤ effective ≤ 20.0` — again inclusive — or the stop is the last of
the day) and `effective > 17.0` and no dinner is scheduled that day. -/
theorem C5_amended_meal_windows (e : ℚ) (isLast : Bool) (sched : List Item) :
    (isLunchTime e sched = true ↔
      (11.5 ≤ e ∧ e ≤ 14) ∧ ¬ scheduledMeal_spec sched "lunch")
    ∧ (isDinnerTime e isLast sched = true ↔
      ((17.5 ≤ e ∧ e ≤ 20) ∨ isLast = true) ∧ 17 < e ∧
        ¬ scheduledMeal_spec sched "dinner") := by
  constructor
  · simp [isLunchTime, hasMealType, scheduledMeal_spec, List.any_eq_true]
  · simp [isDinnerTime, hasMealType, scheduledMeal_spec, List.any_eq_true]
    tauto

/-- A one-attraction day whose clock lands exactly on 14.0 at the meal
decision point. -/
def lunchAttr : Item := { name := "Long Museum", duration := some "4.75 hours", coordinates := some (0, 0) }

/-- A geocoded lunch restaurant. -/
def lunchResto : Item := { name := "Cafe L", coordinates := some (1, 0), meal_type := some "lunch" }

/-- An oracle that reports every lookup as 5 km / 0 h. -/
def mC5 : GeoMatrix := fun _ _ => some ⟨5, 0⟩

/-- C5 (counterexample to the claim as stated): with the day clock reaching
effective time exactly 14.0 at the decision point, the code *does* insert a
lunch (scheduled at 14.0), although the claim's strict window
`11.5 ≤ effective < 14.0` says lunch is not eligible there. -/
theorem C5_counterexample :
    ((_integrate_dining mC5 [[lunchAttr]] [lunchResto] (some (0, 0))).flatten.filter
        (fun i => i.is_meal)).map (fun i => (i.meal_type_scheduled, i.scheduled_time))
      = [(some "lunch", some 14)]
    ∧ ¬ ((14 : ℚ) < 14) := by
  refine ⟨?_, by norm_num⟩
  norm_num [_integrate_dining, _calculate_travel_times, integrateDay, dineStep,
    maybeInsertMeal, isLunchTime, isDinnerTime, hasMealType, pyMod, pyInt,
    _find_nearest_restaurant, nearestLoop, withDist, lunchAttr, lunchResto, mC5,
    pd_four_three_quarters]

/-! ## Claim C6: day end time -/

/-- C6 (amended): for a finalized day with at least one activity, the day
record's end time is computed from the *truncated hour* of the last
activity's scheduled time — its minutes component is dropped, not preserved
— plus the activity's parsed duration, run through the overflow formatter;
and if the last activity's own scheduled time is already at or past 24 h the
end time is the fixed string "Beyond day boundary". -/
theorem C6_amended_end_time (items : List Item) (lastI : Item) (t : ℚ)
    (hlast : items.getLast? = some lastI) (ht : lastI.scheduled_time = some t) :
    (t < 24 → dayEndTime items =
      some (_format_time_with_overflow
        ((pyInt t : ℚ) + _parse_duration (activityDurationStr lastI))))
    ∧ (24 ≤ t → dayEndTime items = some "Beyond day boundary") := by
  have hd : dayEndTime items =
      some (if 24 ≤ t then "Beyond day boundary"
        else _format_time_with_overflow
          ((pyInt t : ℚ) + _parse_duration (activityDurationStr lastI))) := by
    unfold dayEndTime activityTimeQ
    rw [hlast]
    simp [ht]
  rw [hd]
  constructor
  · intro h
    rw [if_neg (not_le.mpr h)]
  · intro h
    rw [if_pos h]

theorem C6_amended_end_time_witness :
    dayEndTime [{ name := "X", duration := some "2 hours", scheduled_time := some 10.75 }]
      = some "12:00" := by
  have h := (C6_amended_end_time
    [{ name := "X", duration := some "2 hours", scheduled_time := some 10.75 }]
    { name := "X", duration := some "2 hours", scheduled_time := some 10.75 }
    10.75 rfl rfl).1 (by norm_num)
  rw [h]
  have hd : activityDurationStr
      { name := "X", duration := some "2 hours", scheduled_time := some (10.75 : ℚ) }
      = "2 hours" := rfl
  rw [hd, pd_two_hours]
  have hi : ((pyInt 10.75 : ℤ) : ℚ) = 10 := by norm_num [pyInt]
  rw [hi, show (10 : ℚ) + 2 = 12 by norm_num, fmt_twelve]

/-- A two-attraction day whose second stop is recorded at 10:45. -/
def c6day : List Item :=
  [ { name := "A", duration := some "1.5 hours" },
    { name := "B", duration := some "2 hours" } ]

/-- C6 (counterexample to the claim as stated): the last activity of the
produced day is scheduled at 10.75 (10:45) with duration "2 hours"; the code
computes the day end time as "12:00" (minutes dropped), but the claim's
"scheduled_time plus duration through the same formatter" would give
"12:45". -/
theorem C6_counterexample :
    ((_integrate_dining (fun _ _ => none) [c6day] [] none).flatten.map
        (fun i => i.scheduled_time)) = [some 9, some 10.75]
    ∧ dayEndTime ((_integrate_dining (fun _ _ => none) [c6day] [] none).flatten)
        = some "12:00"
    ∧ _format_time_with_overflow ((10.75 : ℚ) + _parse_duration "2 hours") = "12:45"
    ∧ ("12:00" : String) ≠ "12:45" := by
  have hrun : (_integrate_dining (fun _ _ => none) [c6day] [] none).flatten
      = [ { name := "A", duration := some "1.5 hours", scheduled_time := some 9 },
          { name := "B", duration := some "2 hours", scheduled_time := some 10.75 } ] := by
    norm_num [_integrate_dining, _calculate_travel_times, travelPair, integrateDay,
      dineStep, maybeInsertMeal, isLunchTime, isDinnerTime, hasMealType, pyMod, pyInt,
      c6day, pd_one_and_half, pd_two_hours]
  refine ⟨by rw [hrun]; rfl, ?_, by rw [pd_two_hours, show (10.75 : ℚ) + 2 = 12.75 by norm_num, fmt_1245], by decide⟩
  rw [hrun]
  unfold dayEndTime activityTimeQ
  norm_num [Option.getD, activityDurationStr, pd_two_hours, pyInt]
  exact fmt_twelve

/-! ## Claim C4: overflow formatting of the next scheduled time -/

/-- If neither meal window is open at the post-advance clock, the meal block
leaves the state unchanged. -/
theorem maybeInsertMeal_no_window (matrix : GeoMatrix) (restos : List Item)
    (acc : Option Coord) (a : Item) (isLast : Bool) (next? : Option Item) (st : SimState)
    (hL : isLunchTime (pyMod st.t 24) st.sched = false)
    (hD : isDinnerTime (pyMod st.t 24) isLast st.sched = false) :
    maybeInsertMeal matrix restos acc a isLast next? st = st := by
  unfold maybeInsertMeal
  simp [hL, hD]

/-- Every branch of the meal block only ever appends to the schedule. -/
theorem maybeInsertMeal_sched_extends (matrix : GeoMatrix) (restos : List Item)
    (acc : Option Coord) (a : Item) (isLast : Bool) (next? : Option Item) (st : SimState) :
    ∃ tail, (maybeInsertMeal matrix restos acc a isLast next? st).sched
      = st.sched ++ tail := by
  simp only [maybeInsertMeal]
  repeat' split
  all_goals first
    | exact ⟨[], (List.append_nil _).symm⟩
    | exact ⟨_, rfl⟩

/-- Unfolding of one simulation step into the meal block applied to the
post-advance state. -/
theorem dineStep_decomp (matrix : GeoMatrix) (restos : List Item) (acc : Option Coord)
    (a : Item) (isLast : Bool) (next? : Option Item) (st : SimState) :
    dineStep matrix restos acc a isLast next? st
      = maybeInsertMeal matrix restos acc a isLast next?
          ⟨st.sched ++ [{ a with scheduled_time := some st.t }],
           st.t + _parse_duration (a.duration.getD "2 hours") + 0.25 +
             (match a.travel_to_next with
              | some tr => if 2 < tr.duration_h then 0 else tr.duration_h
              | none => 0),
           st.used⟩ := rfl

theorem isLunchTime_false_low (e : ℚ) (sched : List Item) (h : e < 11.5) :
    isLunchTime e sched = false := by
  unfold isLunchTime
  rw [decide_eq_false (fun hc => absurd hc.1 (not_le.mpr h)), Bool.false_and]

theorem isDinnerTime_false_low (e : ℚ) (isLast : Bool) (sched : List Item) (h : e ≤ 17) :
    isDinnerTime e isLast sched = false := by
  unfold isDinnerTime
  rw [decide_eq_false (not_lt.mpr h), Bool.and_false, Bool.false_and]

/-- C4 (amended): with the day clock at 23.5 when a stop of duration
"1 hour" is recorded and no travel segment attached to it, the clock after
the stop is 23.5 + 1 (duration) + 0.25 (buffer) = 24.75, no meal fits the
0.75 effective time, so the *next* recorded scheduled time is 24.75, which
formats as "Day+1 00:45" (not "Day+1 00:30": the fixed 0.25 h buffer is part
of the advance). -/
theorem C4_amended_next_time_formats (matrix : GeoMatrix) (restos : List Item)
    (acc : Option Coord) (a : Item) (isLast : Bool) (next? : Option Item) (st : SimState)
    (h1 : st.t = 23.5) (h2 : a.duration = some "1 hour") (h3 : a.travel_to_next = none) :
    (dineStep matrix restos acc a isLast next? st).t = 24.75
    ∧ (∀ b isLast2 next2, ∃ tail,
        (dineStep matrix restos acc b isLast2 next2
            (dineStep matrix restos acc a isLast next? st)).sched
          = st.sched ++ [{ a with scheduled_time := some (23.5 : ℚ) }]
              ++ ({ b with scheduled_time := some (24.75 : ℚ) } :: tail))
    ∧ _format_time_with_overflow 24.75 = "Day+1 00:45" := by
  have ht : st.t + _parse_duration (a.duration.getD "2 hours") + 0.25 +
      (match a.travel_to_next with
       | some tr => if 2 < tr.duration_h then 0 else tr.duration_h
       | none => 0) = 24.75 := by
    rw [h1, h2, h3]
    simp only [Option.getD_some]
    rw [pd_one_hour]
    norm_num
  have hstep : dineStep matrix restos acc a isLast next? st
      = ⟨st.sched ++ [{ a with scheduled_time := some (23.5 : ℚ) }], 24.75, st.used⟩ := by
    rw [dineStep_decomp, ht, h1]
    exact maybeInsertMeal_no_window _ _ _ _ _ _ _
      (isLunchTime_false_low _ _ (by norm_num [pyMod]))
      (isDinnerTime_false_low _ _ _ (by norm_num [pyMod]))
  refine ⟨by rw [hstep], ?_, fmt_overflow_0045⟩
  intro b isLast2 next2
  rw [hstep]
  obtain ⟨tail, htail⟩ := maybeInsertMeal_sched_extends matrix restos acc b isLast2 next2
    ⟨(st.sched ++ [{ a with scheduled_time := some (23.5 : ℚ) }])
        ++ [{ b with scheduled_time := some (24.75 : ℚ) }], 24.75 + _parse_duration (b.duration.getD "2 hours") + 0.25 +
      (match b.travel_to_next with
       | some tr => if 2 < tr.duration_h then 0 else tr.duration_h
       | none => 0), st.used⟩
  refine ⟨tail, ?_⟩
  unfold dineStep
  rw [htail]
  simp

theorem C4_amended_next_time_formats_witness :
    (dineStep (fun _ _ => none) [] none { name := "B", duration := some "1 hour" }
      false none ⟨[], 23.5, []⟩).t = 24.75
    ∧ _format_time_with_overflow 24.75 = "Day+1 00:45" :=
  ⟨(C4_amended_next_time_formats (fun _ _ => none) [] none
      { name := "B", duration := some "1 hour" } false none ⟨[], 23.5, []⟩
      rfl rfl rfl).1,
   (C4_amended_next_time_formats (fun _ _ => none) [] none
      { name := "B", duration := some "1 hour" } false none ⟨[], 23.5, []⟩
      rfl rfl rfl).2.2⟩

/-- A day that reaches cursor 23.5 at its second stop. -/
def c4day : List Item :=
  [ { name := "A", duration := some "14.25 hours" },
    { name := "B", duration := some "1 hour" },
    { name := "C", duration := some "1 hour" } ]

/-- C4 (counterexample to the claim as stated): stop "B" is recorded at the
cursor 23.5 with duration "1 hour"; the next recorded scheduled time (stop
"C") formats as "Day+1 00:45", not "Day+1 00:30" — the 0.25 h buffer is also
added. -/
theorem C4_counterexample :
    ((_integrate_dining (fun _ _ => none) [c4day] [] none).flatten.map
        (fun i => i.scheduled_time.map _format_time_with_overflow))
      = [some "09:00", some "23:30", some "Day+1 00:45"]
    ∧ ("Day+1 00:45" : String) ≠ "Day+1 00:30" := by
  have hrun : ((_integrate_dining (fun _ _ => none) [c4day] [] none).flatten.map
      (fun i => i.scheduled_time)) = [some 9, some 23.5, some 24.75] := by
    norm_num [_integrate_dining, _calculate_travel_times, travelPair, integrateDay,
      dineStep, maybeInsertMeal, isLunchTime, isDinnerTime, hasMealType, pyMod, pyInt,
      c4day, pd_quarter_past_fourteen, pd_one_hour]
  constructor
  · have : ((_integrate_dining (fun _ _ => none) [c4day] [] none).flatten.map
        (fun i => i.scheduled_time.map _format_time_with_overflow))
        = (((_integrate_dining (fun _ _ => none) [c4day] [] none).flatten.map
            (fun i => i.scheduled_time)).map (fun o => o.map _format_time_with_overflow)) := by
      rw [List.map_map]
      rfl
    rw [this, hrun]
    simp only [List.map_cons, List.map_nil, Option.map_some']
    rw [fmt_nine, fmt_half_past_23, fmt_overflow_0045]
  · decide

theorem C10_splitDays_partition_witness :
    (splitDays [0, 1, 2] 2).length = 2
    ∧ (splitDays [0, 1, 2] 2).flatten = [0, 1, 2]
    ∧ (∀ k, k < 2 - 1 →
        (splitDays [0, 1, 2] 2)[k]? =
          some (([0, 1, 2].drop (k * max 1 ([0, 1, 2].length / 2))).take
            (max 1 ([0, 1, 2].length / 2))))
    ∧ (splitDays [0, 1, 2] 2)[2 - 1]? =
        some ([0, 1, 2].drop ((2 - 1) * max 1 ([0, 1, 2].length / 2)))
    ∧ (∀ k, [0, 1, 2].length ≤ k → k < 2 → (splitDays ([0, 1, 2] : List ℕ) 2)[k]? = some []) :=
  C10_splitDays_partition [0, 1, 2] 2 (by norm_num)

/-! ## Claim C3: clock advance on meal insertion -/

/-- The meal-insertion block as one equation, under the hypotheses that a
meal window is open, a current location exists, the nearest-restaurant
search succeeds, and the found restaurant carries its distance record and no
pre-existing travel segment. -/
theorem maybeInsertMeal_insert_eq (matrix : GeoMatrix) (restos : List Item)
    (acc : Option Coord) (a : Item) (isLast : Bool) (next? : Option Item) (st : SimState)
    (loc : Coord) (r : Item) (dinfo : DistInfo)
    (hElig : (isLunchTime (pyMod st.t 24) st.sched
        || isDinnerTime (pyMod st.t 24) isLast st.sched) = true)
    (hLoc : a.coordinates.orElse (fun _ => acc) = some loc)
    (hFind : _find_nearest_restaurant matrix loc
        (restos.filter (fun x => !st.used.contains x.name))
        (if isLunchTime (pyMod st.t 24) st.sched then "lunch" else "dinner") = some r)
    (hDist : r.distance_from_current = some dinfo)
    (hTrav : r.travel_to_next = none) :
    maybeInsertMeal matrix restos acc a isLast next? st
      = (let r2 : Item :=
          { r with
            is_meal := true
            meal_type_scheduled :=
              some (if isLunchTime (pyMod st.t 24) st.sched then "lunch" else "dinner")
            scheduled_time := some (st.t + (dinfo.duration_minutes : ℚ) / 60)
            travel_to_next :=
              match next? with
              | some nxt =>
                  (match nxt.coordinates, r.coordinates with
                   | some nc, some rc => _calculate_travel_from_restaurant matrix rc nc
                   | _, _ => none)
              | none => none }
        ⟨st.sched ++ [r2],
         st.t + (dinfo.duration_minutes : ℚ) / 60 + 1 + 0.25 +
           (match r2.travel_to_next with
            | some tr => if tr.duration_h ≤ 2 then tr.duration_h else 0
            | none => 0),
         r.name :: st.used⟩) := by
  simp only [maybeInsertMeal, hElig, hLoc, hFind, hDist, hTrav, if_true]
  cases next? with
  | none => rfl
  | some nxt =>
      cases hnc : nxt.coordinates with
      | none => simp [hnc]
      | some nc =>
          cases hrc : r.coordinates with
          | none => simp [hnc, hrc]
          | some rc =>
              cases hcv : _calculate_travel_from_restaurant matrix rc nc with
              | none => simp [hnc, hrc, hcv, hTrav]
              | some tr => simp [hnc, hrc, hcv]

/-- C3 (amended): when a meal is inserted, the clock advances by the travel
time to reach the selected restaurant (`duration_minutes / 60`, applied
*unconditionally* — the 2-hour cap does not apply to this leg), plus 1 hour
of dining, plus the 0.25 h buffer; the restaurant is marked used trip-wide;
its travel segment to the following stop, if that stop and the restaurant
are geocoded, is computed by `_calculate_travel_from_restaurant` (which
discards any result over 100 km) and additionally advances the clock when
its duration is at most 2 h. -/
theorem C3_amended_meal_advance (matrix : GeoMatrix) (restos : List Item)
    (acc : Option Coord) (a : Item) (isLast : Bool) (next? : Option Item) (st : SimState)
    (loc : Coord) (r : Item) (dinfo : DistInfo)
    (hElig : (isLunchTime (pyMod st.t 24) st.sched
        || isDinnerTime (pyMod st.t 24) isLast st.sched) = true)
    (hLoc : a.coordinates.orElse (fun _ => acc) = some loc)
    (hFind : _find_nearest_restaurant matrix loc
        (restos.filter (fun x => !st.used.contains x.name))
        (if isLunchTime (pyMod st.t 24) st.sched then "lunch" else "dinner") = some r)
    (hDist : r.distance_from_current = some dinfo)
    (hTrav : r.travel_to_next = none) :
    maybeInsertMeal matrix restos acc a isLast next? st
      = (let r2 : Item :=
          { r with
            is_meal := true
            meal_type_scheduled :=
              some (if isLunchTime (pyMod st.t 24) st.sched then "lunch" else "dinner")
            scheduled_time := some (st.t + (dinfo.duration_minutes : ℚ) / 60)
            travel_to_next :=
              match next? with
              | some nxt =>
                  (match nxt.coordinates, r.coordinates with
                   | some nc, some rc => _calculate_travel_from_restaurant matrix rc nc
                   | _, _ => none)
              | none => none }
        ⟨st.sched ++ [r2],
         st.t + (dinfo.duration_minutes : ℚ) / 60 + 1 + 0.25 +
           (match r2.travel_to_next with
            | some tr => if tr.duration_h ≤ 2 then tr.duration_h else 0
            | none => 0),
         r.name :: st.used⟩) :=
  maybeInsertMeal_insert_eq matrix restos acc a isLast next? st loc r dinfo
    hElig hLoc hFind hDist hTrav

/-- The oracle for the C3 scenario: every lookup is 10 km and 3 h of travel. -/
def mC3 : GeoMatrix := fun _ _ => some ⟨10, 3⟩

theorem C3_amended_meal_advance_witness :
    (maybeInsertMeal mC3 [lunchResto] none lunchAttr true none ⟨[], 11.75, []⟩).t = 16 := by
  have h := C3_amended_meal_advance mC3 [lunchResto] none lunchAttr true none
      ⟨[], 11.75, []⟩ (0, 0)
      { name := "Cafe L", coordinates := some (1, 0), meal_type := some "lunch",
        distance_from_current := some ⟨10, 180⟩ } ⟨10, 180⟩
      (by simp [isLunchTime, hasMealType, pyMod]; norm_num)
      rfl
      (by simp +decide [_find_nearest_restaurant, nearestLoop, withDist, lunchResto, mC3,
            isLunchTime, hasMealType, pyMod]
          norm_num [nearestLoop, withDist, mC3, coordOf, pyInt])
      rfl rfl
  rw [h]
  norm_num

/-- A single-stop day reaching the lunch window at 11.75. -/
def c3attr : Item := { name := "Plaza", duration := some "2.5 hours", coordinates := some (0, 0) }

/-- C3 (counterexample to the claim as stated): the selected restaurant is
3 h of travel away; the code advances the clock by the full 3 h (meal
scheduled at 11.75 + 3 = 14.75) although the claim says travel over 2 h is
discarded, not applied. -/
theorem C3_counterexample :
    ((_integrate_dining mC3 [[c3attr]] [lunchResto] (some (0, 0))).flatten.filter
        (fun i => i.is_meal)).map (fun i => i.scheduled_time) = [some 14.75]
    ∧ (14.75 : ℚ) = 11.75 + 3
    ∧ ¬ ((3 : ℚ) ≤ 2) := by
  refine ⟨?_, by norm_num, by norm_num⟩
  norm_num [_integrate_dining, _calculate_travel_times, travelPair, integrateDay,
    dineStep, maybeInsertMeal, isLunchTime, isDinnerTime, hasMealType, pyMod, pyInt,
    _find_nearest_restaurant, nearestLoop, withDist, c3attr, lunchResto, mC3,
    pd_two_and_half]

/-! ## Claim C9: sanity caps on travel segments -/

/-- C9 (amended): (1) an attraction pair whose routed distance exceeds
100 km gets no `travel_to_next` segment; (2) a restaurant-to-next lookup
over 100 km is discarded; (3) an attraction's travel segment over 2 h never
advances the clock — the step advances only by duration + buffer and the
stop is still scheduled; (4) a selected restaurant's onward segment over 2 h
never advances the clock — the clock advances only by the (uncapped) travel
to the restaurant, 1 h of dining, and the buffer.  (The leg *to* the
restaurant itself is exempt from the 2 h cap; see C3.) -/
theorem C9_amended_caps :
    (∀ (matrix : GeoMatrix) (a b : Item) (ca cb : Coord) (r : Travel),
      a.coordinates = some ca → b.coordinates = some cb → matrix ca cb = some r →
      100 < r.distance_km → travelPair matrix a b = a)
    ∧ (∀ (matrix : GeoMatrix) (rc nc : Coord) (r : Travel),
      matrix rc nc = some r → 100 < r.distance_km →
      _calculate_travel_from_restaurant matrix rc nc = none)
    ∧ (∀ (matrix : GeoMatrix) (restos : List Item) (acc : Option Coord) (a : Item)
        (isLast : Bool) (next? : Option Item) (st : SimState) (tr : Travel),
      a.travel_to_next = some tr → 2 < tr.duration_h →
      dineStep matrix restos acc a isLast next? st
        = maybeInsertMeal matrix restos acc a isLast next?
            ⟨st.sched ++ [{ a with scheduled_time := some st.t }],
             st.t + _parse_duration (a.duration.getD "2 hours") + 0.25, st.used⟩)
    ∧ (∀ (matrix : GeoMatrix) (restos : List Item) (acc : Option Coord) (a : Item)
        (isLast : Bool) (next? : Option Item) (st : SimState)
        (loc : Coord) (r : Item) (dinfo : DistInfo) (tr : Travel),
      (isLunchTime (pyMod st.t 24) st.sched
          || isDinnerTime (pyMod st.t 24) isLast st.sched) = true →
      a.coordinates.orElse (fun _ => acc) = some loc →
      _find_nearest_restaurant matrix loc
          (restos.filter (fun x => !st.used.contains x.name))
          (if isLunchTime (pyMod st.t 24) st.sched then "lunch" else "dinner") = some r →
      r.distance_from_current = some dinfo →
      r.travel_to_next = none →
      (match next? with
       | some nxt =>
           (match nxt.coordinates, r.coordinates with
            | some nc, some rc => _calculate_travel_from_restaurant matrix rc nc
            | _, _ => none)
       | none => none) = some tr →
      2 < tr.duration_h →
      (maybeInsertMeal matrix restos acc a isLast next? st).t
        = st.t + (dinfo.duration_minutes : ℚ) / 60 + 1 + 0.25) := by
  refine ⟨?_, ?_, ?_, ?_⟩
  · intro matrix a b ca cb r h1 h2 hm hd
    unfold travelPair
    simp [h1, h2, hm, hd]
  · intro matrix rc nc r hm hd
    unfold _calculate_travel_from_restaurant
    simp [hm, hd]
  · intro matrix restos acc a isLast next? st tr ha h2
    rw [dineStep_decomp, ha]
    simp [h2]
  · intro matrix restos acc a isLast next? st loc r dinfo tr
      hElig hLoc hFind hDist hTrav htr h2
    rw [maybeInsertMeal_insert_eq matrix restos acc a isLast next? st loc r dinfo
      hElig hLoc hFind hDist hTrav]
    have hle : ¬ (tr.duration_h ≤ 2) := not_le.mpr h2
    simp [htr, hle]

/-- A distance oracle beyond the 100 km sanity bound. -/
def mBig : GeoMatrix := fun _ _ => some ⟨150, 1⟩

/-- The oracle for the C9 meal scenario: 20 km and 2.5 h per lookup. -/
def mC9 : GeoMatrix := fun _ _ => some ⟨20, 2.5⟩

def cA : Item := { name := "A", coordinates := some (0, 0) }
def cB : Item := { name := "B", coordinates := some (1, 0) }
def c9next : Item := { name := "Next stop", coordinates := some (2, 0) }

def cX : Item := { name := "X", travel_to_next := some ⟨10, 3⟩ }

theorem C9_amended_caps_witness :
    travelPair mBig cA cB = cA
    ∧ _calculate_travel_from_restaurant mBig (0, 0) (1, 0) = none
    ∧ dineStep mBig [] none cX false none ⟨[], 9, []⟩
        = maybeInsertMeal mBig [] none cX false none
            ⟨[] ++ [{ cX with scheduled_time := some (9 : ℚ) }],
             9 + _parse_duration (cX.duration.getD "2 hours") + 0.25, []⟩
    ∧ (maybeInsertMeal mC3 [lunchResto] none c3attr false (some c9next)
        ⟨[], 11.75, []⟩).t = 11.75 + ((180 : ℤ) : ℚ) / 60 + 1 + 0.25 :=
  ⟨C9_amended_caps.1 mBig cA cB (0, 0) (1, 0) ⟨150, 1⟩ rfl rfl rfl (by norm_num),
   C9_amended_caps.2.1 mBig (0, 0) (1, 0) ⟨150, 1⟩ rfl (by norm_num),
   C9_amended_caps.2.2.1 mBig [] none cX false none ⟨[], 9, []⟩ ⟨10, 3⟩ rfl (by norm_num),
   C9_amended_caps.2.2.2 mC3 [lunchResto] none c3attr false (some c9next)
     ⟨[], 11.75, []⟩ (0, 0)
     { name := "Cafe L", coordinates := some (1, 0), meal_type := some "lunch",
       distance_from_current := some ⟨10, 180⟩ } ⟨10, 180⟩ ⟨10, 3⟩
     (by simp [isLunchTime, hasMealType, pyMod]; norm_num)
     rfl
     (by simp +decide [_find_nearest_restaurant, nearestLoop, withDist, lunchResto, mC3,
           isLunchTime, hasMealType, pyMod]
         norm_num [nearestLoop, withDist, mC3, coordOf, pyInt])
     rfl rfl
     (by norm_num [c9next, _calculate_travel_from_restaurant, mC3])
     (by norm_num)⟩

/-- C9 (counterexample to the claim as stated): a 2.5 h travel segment — the
leg to reach the selected restaurant — *is* applied to the day clock: the
meal is scheduled at 11.75 + 2.5 = 14.25, although the claim says no segment
over 2 h is ever applied. -/
theorem C9_counterexample :
    ((_integrate_dining mC9 [[c3attr]] [lunchResto] (some (0, 0))).flatten.filter
        (fun i => i.is_meal)).map (fun i => i.scheduled_time) = [some 14.25]
    ∧ (14.25 : ℚ) = 11.75 + 2.5
    ∧ ¬ ((2.5 : ℚ) ≤ 2) := by
  refine ⟨?_, by norm_num, by norm_num⟩
  norm_num [_integrate_dining, _calculate_travel_times, travelPair, integrateDay,
    dineStep, maybeInsertMeal, isLunchTime, isDinnerTime, hasMealType, pyMod, pyInt,
    _find_nearest_restaurant, nearestLoop, withDist, c3attr, lunchResto, mC9,
    pd_two_and_half]

/-! ## Claim C8: greedy nearest-neighbour route ordering -/

/-- The specification's description of the greedy nearest-neighbour order:
from the current location, the next stop is an unvisited stop of minimum key
distance, strictly closer than every stop before it in the remaining list
(so ties go to the earliest original position), and the current location
becomes that stop's coordinate.  (Erasures preserve relative order, so
"earliest in the remaining list" is "earliest in original input order".) -/
inductive NNOrder (dist : Coord → Coord → ℚ) : Coord → List Item → List Item → Prop
  | nil (loc : Coord) : NNOrder dist loc [] []
  | step (loc : Coord) (pre post out : List Item) (b : Item)
      (hmin : ∀ c ∈ pre ++ b :: post, keyDist dist loc b ≤ keyDist dist loc c)
      (hearliest : ∀ c ∈ pre, keyDist dist loc b < keyDist dist loc c)
      (hrec : NNOrder dist (coordOf b) (pre ++ post) out) :
      NNOrder dist loc (pre ++ b :: post) (b :: out)

theorem pickNearest_nil (d : Item → ℚ) : pickNearest d [] = none := rfl

theorem pickNearest_cons (d : Item → ℚ) (a : Item) (tl : List Item) :
    pickNearest d (a :: tl) =
      (match pickNearest d tl with
       | none => some (a, [])
       | some (b, rest1) => if d b < d a then some (b, a :: rest1) else some (a, tl)) := rfl

theorem pickNearest_of_cons (d : Item → ℚ) (a : Item) (tl : List Item) :
    ∃ p, pickNearest d (a :: tl) = some p := by
  rw [pickNearest_cons]
  cases htl : pickNearest d tl with
  | none => exact ⟨(a, []), rfl⟩
  | some p =>
      obtain ⟨b1, rest1⟩ := p
      by_cases hcmp : d b1 < d a
      · exact ⟨(b1, a :: rest1), by simp [hcmp]⟩
      · exact ⟨(a, tl), by simp [hcmp]⟩

/-- `pickNearest` returns the earliest minimum and removes exactly that
occurrence. -/
theorem pickNearest_spec (d : Item → ℚ) :
    ∀ l b rest, pickNearest d l = some (b, rest) →
      ∃ pre post, l = pre ++ b :: post ∧ rest = pre ++ post
        ∧ (∀ c ∈ l, d b ≤ d c) ∧ (∀ c ∈ pre, d b < d c) := by
  intro l
  induction l with
  | nil => intro b rest h; rw [pickNearest_nil] at h; cases h
  | cons a tl ih =>
      intro b rest h
      cases htl : pickNearest d tl with
      | none =>
          cases tl with
          | nil =>
              simp only [pickNearest_cons, pickNearest_nil] at h
              have h2 : a = b ∧ [] = rest := by simpa using h
              obtain ⟨hb, hr⟩ := h2
              subst hb
              subst hr
              refine ⟨[], [], rfl, rfl, ?_, by intro c hc; simp at hc⟩
              intro c hc
              simp at hc
              subst hc
              exact le_refl _
          | cons x xs =>
              obtain ⟨p, hp⟩ := pickNearest_of_cons d x xs
              rw [hp] at htl
              cases htl
      | some p =>
          obtain ⟨b1, rest1⟩ := p
          obtain ⟨pre, post, hl, hr, hmin, hstrict⟩ := ih b1 rest1 htl
          simp only [pickNearest_cons, htl] at h
          by_cases hcmp : d b1 < d a
          · rw [if_pos hcmp] at h
            simp only [Option.some.injEq, Prod.mk.injEq] at h
            obtain ⟨hb, hrest⟩ := h
            subst hb; subst hrest
            refine ⟨a :: pre, post, by rw [hl]; rfl, by rw [hr]; rfl, ?_, ?_⟩
            · intro c hc
              rcases List.mem_cons.mp hc with hc | hc
              · subst hc; exact le_of_lt hcmp
              · exact hmin c (hl ▸ hc)
            · intro c hc
              rcases List.mem_cons.mp hc with hc | hc
              · subst hc; exact hcmp
              · exact hstrict c hc
          · rw [if_neg hcmp] at h
            simp only [Option.some.injEq, Prod.mk.injEq] at h
            obtain ⟨hb, hrest⟩ := h
            subst hb; subst hrest
            refine ⟨[], tl, rfl, rfl, ?_, by simp⟩
            intro c hc
            rcases List.mem_cons.mp hc with hc | hc
            · subst hc; exact le_refl _
            · exact le_trans (not_lt.mp hcmp) (hmin c hc)

theorem nnLoop_NNOrder (dist : Coord → Coord → ℚ) :
    ∀ (n : ℕ) (l : List Item) (loc : Coord), l.length = n →
      NNOrder dist loc l (nnLoop dist n loc l) := by
  intro n
  induction n with
  | zero =>
      intro l loc hl
      rw [List.length_eq_zero] at hl
      subst hl
      exact NNOrder.nil loc
  | succ m ih =>
      intro l loc hl
      cases l with
      | nil => simp at hl
      | cons a tl =>
          obtain ⟨p, hp⟩ := pickNearest_of_cons (keyDist dist loc) a tl
          obtain ⟨b, rest⟩ := p
          obtain ⟨pre, post, hdecomp, hrest, hmin, hstrict⟩ :=
            pickNearest_spec (keyDist dist loc) (a :: tl) b rest hp
          have hloop : nnLoop dist (m + 1) loc (a :: tl)
              = b :: nnLoop dist m (coordOf b) rest := by
            simp only [nnLoop, hp]
          have hrl : rest.length = m := by
            have h1 := congrArg List.length hdecomp
            have h2 := congrArg List.length hrest
            simp [List.length_append] at h1 h2
            simp at hl
            omega
          rw [hloop, hdecomp]
          refine NNOrder.step loc pre post _ b ?_ hstrict ?_
          · intro c hc
            exact hmin c (hdecomp ▸ hc)
          · rw [← hrest]
            exact ih rest (coordOf b) hrl

/-- C8: per day bucket, with at most 2 geocoded stops the input order is
returned unchanged; with more than 2, the output is the greedy
nearest-neighbour order over the geocoded stops (current location starting
from the given start location, else the first geocoded stop; each step takes
the unvisited geocoded stop of minimum distance, ties to the earliest input
position) followed by the non-geocoded stops in their original relative
order. -/
theorem C8_orderStops_greedy (dist : Coord → Coord → ℚ) (startLoc : Option Coord)
    (day : List Item) :
    ((day.filter (fun a => a.coordinates.isSome)).length ≤ 2 →
      orderStops dist startLoc day = day)
    ∧ (2 < (day.filter (fun a => a.coordinates.isSome)).length →
        orderStops dist startLoc day
          = nnLoop dist (day.filter (fun a => a.coordinates.isSome)).length
              (startLoc.getD (coordOf (day.filter (fun a => a.coordinates.isSome)).headI))
              (day.filter (fun a => a.coordinates.isSome))
            ++ day.filter (fun a => !a.coordinates.isSome)
          ∧ NNOrder dist
              (startLoc.getD (coordOf (day.filter (fun a => a.coordinates.isSome)).headI))
              (day.filter (fun a => a.coordinates.isSome))
              (nnLoop dist (day.filter (fun a => a.coordinates.isSome)).length
                (startLoc.getD (coordOf (day.filter (fun a => a.coordinates.isSome)).headI))
                (day.filter (fun a => a.coordinates.isSome)))) := by
  have horder : orderStops dist startLoc day =
      if day.length ≤ 2 then day
      else if (day.filter (fun a => a.coordinates.isSome)).length ≤ 2 then day
      else nnLoop dist (day.filter (fun a => a.coordinates.isSome)).length
          (startLoc.getD (coordOf (day.filter (fun a => a.coordinates.isSome)).headI))
          (day.filter (fun a => a.coordinates.isSome))
        ++ day.filter (fun a => !a.coordinates.isSome) := rfl
  constructor
  · intro hg
    rw [horder]
    by_cases h1 : day.length ≤ 2
    · rw [if_pos h1]
    · rw [if_neg h1, if_pos hg]
  · intro hg
    have hlen : ¬ (day.length ≤ 2) := by
      intro hle
      exact absurd (le_trans (List.length_filter_le _ _) hle) (not_le.mpr hg)
    constructor
    · rw [horder, if_neg hlen, if_neg (not_le.mpr hg)]
    · exact nnLoop_NNOrder dist _ _ _ rfl

def wG1 : Item := { name := "G1", coordinates := some (0, 0) }
def wG2 : Item := { name := "G2", coordinates := some (5, 0) }
def wG3 : Item := { name := "G3", coordinates := some (1, 0) }
def wN : Item := { name := "N" }
def wDay : List Item := [wG1, wG2, wG3, wN]

/-- Squared-Euclidean key used to exercise the route optimizer. -/
def wDist : Coord → Coord → ℚ := fun a b => (a.1 - b.1) ^ 2 + (a.2 - b.2) ^ 2

theorem C8_orderStops_greedy_witness :
    orderStops wDist (some (0, 0)) wDay
        = nnLoop wDist (wDay.filter (fun a => a.coordinates.isSome)).length
            ((some ((0 : ℚ), (0 : ℚ))).getD
              (coordOf (wDay.filter (fun a => a.coordinates.isSome)).headI))
            (wDay.filter (fun a => a.coordinates.isSome))
          ++ wDay.filter (fun a => !a.coordinates.isSome)
    ∧ NNOrder wDist
        ((some ((0 : ℚ), (0 : ℚ))).getD
          (coordOf (wDay.filter (fun a => a.coordinates.isSome)).headI))
        (wDay.filter (fun a => a.coordinates.isSome))
        (nnLoop wDist (wDay.filter (fun a => a.coordinates.isSome)).length
          ((some ((0 : ℚ), (0 : ℚ))).getD
            (coordOf (wDay.filter (fun a => a.coordinates.isSome)).headI))
          (wDay.filter (fun a => a.coordinates.isSome))) :=
  (C8_orderStops_greedy wDist (some (0, 0)) wDay).2 (by decide)

/-! ## Claim C1: no dining option is scheduled twice across the trip -/

/-- Names of the meal activities in a schedule. -/
def mealNames (l : List Item) : List String :=
  (l.filter (fun i => i.is_meal)).map (fun i => i.name)

theorem mealNames_append (l1 l2 : List Item) :
    mealNames (l1 ++ l2) = mealNames l1 ++ mealNames l2 := by
  simp [mealNames, List.filter_append]

theorem mealNames_single_meal (l : List Item) (x : Item) (hx : x.is_meal = true) :
    mealNames (l ++ [x]) = mealNames l ++ [x.name] := by
  rw [mealNames_append]
  simp [mealNames, hx]

theorem mealNames_single_nonmeal (l : List Item) (x : Item) (hx : x.is_meal = false) :
    mealNames (l ++ [x]) = mealNames l := by
  rw [mealNames_append]
  simp [mealNames, hx]

theorem nearestLoop_cons (matrix : GeoMatrix) (loc : Coord) (r : Item)
    (rest : List Item) (st : Option ℚ × Option Item) :
    nearestLoop matrix loc (r :: rest) st
      = nearestLoop matrix loc rest
          (match matrix loc (coordOf r) with
           | some res =>
               (match st.1 with
                | none => (some res.distance_km, some (withDist r res))
                | some m =>
                    if res.distance_km < m then (some res.distance_km, some (withDist r res))
                    else st)
           | none => st) := rfl

/-- Any restaurant produced by the selection loop is (a `withDist` copy of)
an element of the scanned list, so in particular shares its name. -/
theorem nearestLoop_name (matrix : GeoMatrix) (loc : Coord) :
    ∀ (l : List Item) (st : Option ℚ × Option Item) (x : Item),
      (nearestLoop matrix loc l st).2 = some x →
      (∃ y, st.2 = some y ∧ y.name = x.name) ∨ ∃ y ∈ l, y.name = x.name := by
  intro l
  induction l with
  | nil => intro st x h; exact Or.inl ⟨x, h, rfl⟩
  | cons r rest ih =>
      intro st x h
      rw [nearestLoop_cons] at h
      rcases ih _ x h with ⟨y, hy, hn⟩ | ⟨y, hy, hn⟩
      · cases hm : matrix loc (coordOf r) with
        | none =>
            simp only [hm] at hy
            exact Or.inl ⟨y, hy, hn⟩
        | some res =>
            simp only [hm] at hy
            cases hst : st.1 with
            | none =>
                simp only [hst, Option.some.injEq] at hy
                subst hy
                exact Or.inr ⟨r, List.mem_cons_self r rest, hn⟩
            | some m =>
                simp only [hst] at hy
                by_cases hlt : res.distance_km < m
                · rw [if_pos hlt] at hy
                  simp only [Option.some.injEq] at hy
                  subst hy
                  exact Or.inr ⟨r, List.mem_cons_self r rest, hn⟩
                · rw [if_neg hlt] at hy
                  exact Or.inl ⟨y, hy, hn⟩
      · exact Or.inr ⟨y, List.mem_cons_of_mem r hy, hn⟩

/-- The selection over a fixed candidate pool yields a candidate's name. -/
theorem find_aux (matrix : GeoMatrix) (loc : Coord) (M rs : List Item) (r : Item)
    (hsub : ∀ y ∈ M, y ∈ rs)
    (h : (if M.isEmpty then none else (nearestLoop matrix loc M (none, none)).2) = some r) :
    ∃ y ∈ rs, y.name = r.name := by
  by_cases hE : M.isEmpty
  · rw [if_pos hE] at h; cases h
  · rw [if_neg hE] at h
    rcases nearestLoop_name matrix loc M (none, none) r h with ⟨y, hy, _⟩ | ⟨y, hy, hn⟩
    · cases hy
    · exact ⟨y, hsub y hy, hn⟩

theorem find_nearest_eq (matrix : GeoMatrix) (loc : Coord) (rs : List Item) (mt : String) :
    _find_nearest_restaurant matrix loc rs mt =
      (if (if (rs.filter (fun x => x.meal_type == some mt && x.coordinates.isSome)).isEmpty
            then rs.filter (fun x => x.coordinates.isSome)
            else rs.filter (fun x => x.meal_type == some mt && x.coordinates.isSome)).isEmpty
       then none
       else (nearestLoop matrix loc
          (if (rs.filter (fun x => x.meal_type == some mt && x.coordinates.isSome)).isEmpty
           then rs.filter (fun x => x.coordinates.isSome)
           else rs.filter (fun x => x.meal_type == some mt && x.coordinates.isSome))
          (none, none)).2) := rfl

/-- A selected restaurant carries the name of one of the candidates. -/
theorem find_nearest_name (matrix : GeoMatrix) (loc : Coord) (rs : List Item)
    (mt : String) (r : Item) (h : _find_nearest_restaurant matrix loc rs mt = some r) :
    ∃ y ∈ rs, y.name = r.name := by
  rw [find_nearest_eq] at h
  refine find_aux matrix loc _ rs r ?_ h
  intro y hy
  by_cases hE : (rs.filter (fun x => x.meal_type == some mt && x.coordinates.isSome)).isEmpty
  · rw [if_pos hE] at hy
    exact List.mem_of_mem_filter hy
  · rw [if_neg hE] at hy
    exact List.mem_of_mem_filter hy

/-- Day-walk invariant relative to the used-set `used0` that was current
when the day started: scheduled meal names are distinct, each is recorded in
the current used set but was not in `used0`, and `used0` survives into the
current used set. -/
def MealInvFrom (used0 : List String) (st : SimState) : Prop :=
  (mealNames st.sched).Nodup
  ∧ (∀ n ∈ mealNames st.sched, n ∈ st.used ∧ n ∉ used0)
  ∧ ∀ n ∈ used0, n ∈ st.used

theorem MealInvFrom_insert (used0 : List String) (st : SimState) (r2 : Item)
    (nm : String) (t : ℚ) (h : MealInvFrom used0 st) (hmeal : r2.is_meal = true)
    (hname : r2.name = nm) (hnotused : nm ∉ st.used) :
    MealInvFrom used0 ⟨st.sched ++ [r2], t, nm :: st.used⟩ := by
  obtain ⟨hnd, hmem, hused0⟩ := h
  have hnew : mealNames (st.sched ++ [r2]) = mealNames st.sched ++ [nm] := by
    rw [mealNames_single_meal _ _ hmeal, hname]
  refine ⟨?_, ?_, ?_⟩
  · rw [hnew]
    rw [List.nodup_append]
    refine ⟨hnd, List.nodup_singleton nm, ?_⟩
    intro n hn hn2
    rw [List.mem_singleton] at hn2
    subst hn2
    exact hnotused (hmem n hn).1
  · intro n hn
    rw [hnew, List.mem_append] at hn
    rcases hn with hn | hn
    · exact ⟨List.mem_cons_of_mem _ (hmem n hn).1, (hmem n hn).2⟩
    · rw [List.mem_singleton] at hn
      subst hn
      refine ⟨List.mem_cons_self _ _, fun hc => hnotused (hused0 n hc)⟩
  · intro n hn
    exact List.mem_cons_of_mem _ (hused0 n hn)

theorem notused_of_find (matrix : GeoMatrix) (loc : Coord) (restos : List Item)
    (used : List String) (mt : String) (r : Item)
    (hfind : _find_nearest_restaurant matrix loc
      (restos.filter (fun x => !used.contains x.name)) mt = some r) :
    r.name ∉ used := by
  obtain ⟨y, hy, hyn⟩ := find_nearest_name _ _ _ _ _ hfind
  have hp := List.of_mem_filter hy
  rw [← hyn]
  simpa using hp

/-- The meal block preserves the day-walk invariant. -/
theorem maybeInsertMeal_inv (matrix : GeoMatrix) (restos : List Item)
    (acc : Option Coord) (a : Item) (isLast : Bool) (next? : Option Item)
    (st : SimState) (used0 : List String) (h : MealInvFrom used0 st) :
    MealInvFrom used0 (maybeInsertMeal matrix restos acc a isLast next? st) := by
  simp only [maybeInsertMeal]
  repeat' split
  all_goals first
    | exact h
    | exact MealInvFrom_insert used0 st _ _ _ h rfl rfl
        (notused_of_find _ _ _ _ _ _ (by assumption))

theorem dineStep_inv (matrix : GeoMatrix) (restos : List Item) (acc : Option Coord)
    (a : Item) (isLast : Bool) (next? : Option Item) (st : SimState)
    (used0 : List String) (h : MealInvFrom used0 st) (ha : a.is_meal = false) :
    MealInvFrom used0 (dineStep matrix restos acc a isLast next? st) := by
  rw [dineStep_decomp]
  apply maybeInsertMeal_inv
  obtain ⟨hnd, hmem, hu⟩ := h
  have hsame : mealNames (st.sched ++ [{ a with scheduled_time := some st.t }])
      = mealNames st.sched :=
    mealNames_single_nonmeal _ _ ha
  exact ⟨by rw [hsame]; exact hnd, by rw [hsame]; exact hmem, hu⟩

theorem integrateDay_inv (matrix : GeoMatrix) (restos : List Item) (acc : Option Coord)
    (used0 : List String) :
    ∀ (l : List Item) (st : SimState), (∀ x ∈ l, x.is_meal = false) →
      MealInvFrom used0 st →
      MealInvFrom used0 (integrateDay matrix restos acc l st) := by
  intro l
  induction l with
  | nil => intro st _ h; exact h
  | cons a rest ih =>
      intro st hl h
      rw [integrateDay]
      exact ih _ (fun x hx => hl x (List.mem_cons_of_mem a hx))
        (dineStep_inv matrix restos acc a rest.isEmpty rest.head? st used0 h
          (hl a (List.mem_cons_self a rest)))

theorem travelPair_is_meal (matrix : GeoMatrix) (a b : Item) :
    (travelPair matrix a b).is_meal = a.is_meal := by
  unfold travelPair
  repeat' split
  all_goals rfl

theorem calc_travel_times_is_meal (matrix : GeoMatrix) :
    ∀ l : List Item, (∀ x ∈ l, x.is_meal = false) →
      ∀ x ∈ _calculate_travel_times matrix l, x.is_meal = false := by
  intro l
  induction l with
  | nil => intro _ x hx; cases hx
  | cons a rest ih =>
      intro hl x hx
      cases rest with
      | nil =>
          simp only [_calculate_travel_times] at hx
          rw [List.mem_singleton] at hx
          subst hx
          exact hl _ (List.mem_cons_self _ _)
      | cons b rest2 =>
          simp only [_calculate_travel_times] at hx
          rw [List.mem_cons] at hx
          rcases hx with hx | hx
          · subst hx
            rw [travelPair_is_meal]
            exact hl _ (List.mem_cons_self _ _)
          · exact ih (fun y hy => hl y (List.mem_cons_of_mem a hy)) x hx

/-- C1: in the produced trip plan, with attraction inputs that are not
pre-marked as meals, every dining option name appears as a scheduled meal
activity at most once across all days of the trip (the trip-wide used set
excludes a selected restaurant from every later meal decision, including
later days). -/
theorem C1_dining_used_once (matrix : GeoMatrix) (days : List (List Item))
    (restos : List Item) (acc : Option Coord)
    (hA : ∀ day ∈ days, ∀ x ∈ day, x.is_meal = false) :
    (mealNames (_integrate_dining matrix days restos acc).flatten).Nodup := by
  suffices hgen : ∀ (ds : List (List Item)) (accDays : List (List Item))
      (used : List String),
      (∀ day ∈ ds, ∀ x ∈ day, x.is_meal = false) →
      (mealNames accDays.flatten).Nodup →
      (∀ n ∈ mealNames accDays.flatten, n ∈ used) →
      (mealNames (ds.foldl
          (fun (accu : List (List Item) × List String) day =>
            let day1 := _calculate_travel_times matrix day
            let st := integrateDay matrix restos acc day1 ⟨[], 9, accu.2⟩
            (accu.1 ++ [st.sched], st.used))
          (accDays, used)).1.flatten).Nodup by
    exact hgen days [] [] hA (by simp [mealNames]) (by simp [mealNames])
  intro ds
  induction ds with
  | nil => intro accDays used _ hnd _; exact hnd
  | cons day rest ih =>
      intro accDays used hmeals hnd hsub
      simp only [List.foldl_cons]
      have hday : MealInvFrom used
          (integrateDay matrix restos acc (_calculate_travel_times matrix day)
            ⟨[], 9, used⟩) := by
        apply integrateDay_inv
        · exact calc_travel_times_is_meal matrix day
            (hmeals day (List.mem_cons_self day rest))
        · exact ⟨by simp [mealNames], by simp [mealNames], fun n hn => hn⟩
      set st := integrateDay matrix restos acc (_calculate_travel_times matrix day)
        ⟨[], 9, used⟩ with hst
      obtain ⟨hdnd, hdmem, hdused⟩ := hday
      apply ih (accDays ++ [st.sched]) st.used
        (fun d hd => hmeals d (List.mem_cons_of_mem day hd))
      · rw [List.flatten_append]
        rw [mealNames_append]
        simp only [List.flatten_cons, List.flatten_nil, List.append_nil]
        rw [List.nodup_append]
        refine ⟨hnd, hdnd, ?_⟩
        intro n hn hn2
        exact (hdmem n hn2).2 (hsub n hn)
      · intro n hn
        rw [List.flatten_append] at hn
        rw [mealNames_append] at hn
        simp only [List.flatten_cons, List.flatten_nil, List.append_nil] at hn
        rw [List.mem_append] at hn
        rcases hn with hn | hn
        · exact hdused n (hsub n hn)
        · exact (hdmem n hn).1

def c1day2 : List Item :=
  [{ name := "Garden", duration := some "2.5 hours", coordinates := some (3, 0) }]

def cafeM : Item := { name := "Cafe M", coordinates := some (4, 0), meal_type := some "lunch" }

theorem C1_dining_used_once_witness :
    (mealNames (_integrate_dining mC3 [[c3attr], c1day2]
      [lunchResto, cafeM] (some (0, 0))).flatten).Nodup :=
  C1_dining_used_once mC3 [[c3attr], c1day2] [lunchResto, cafeM] (some (0, 0))
    (by decide)

/-! ## Claim C2: activities are chronologically ordered -/

theorem pyInt_nonneg (q : ℚ) (h : 0 ≤ q) : 0 ≤ pyInt q := by
  unfold pyInt
  rw [if_pos h]
  exact Int.floor_nonneg.mpr h

theorem pyFloatMag_nonneg (cs : List Char) (q : ℚ) (h : pyFloatMag cs = some q) :
    0 ≤ q := by
  simp only [pyFloatMag] at h
  split at h
  · split at h
    · cases h
    · rw [Option.some.injEq] at h
      subst h
      positivity
  · split at h
    · rw [Option.some.injEq] at h
      subst h
      positivity
    · cases h
  · cases h

theorem pyFloat_nonneg_of_no_hyphen (cs : List Char) (q : ℚ)
    (h : pyFloat? cs = some q) (hn : '-' ∉ cs) : 0 ≤ q := by
  unfold pyFloat? at h
  split at h
  · exact pyFloatMag_nonneg _ _ h
  · exact absurd (List.mem_cons_self _ _) hn
  · exact pyFloatMag_nonneg _ _ h

theorem parse_duration_nonneg (s : String) : 0 ≤ _parse_duration s := by
  simp only [_parse_duration]
  split
  · norm_num
  · split
    · norm_num
    · split
      · norm_num
      · split
        · rename_i tok _ q hq
          refine pyFloat_nonneg_of_no_hyphen _ _ hq ?_
          intro hc
          have := List.mem_takeWhile_imp hc
          simp at this
        · norm_num

/-- Any restaurant produced by the selection loop is exactly a `withDist`
copy of a scanned candidate, built from a successful oracle lookup. -/
theorem nearestLoop_struct (matrix : GeoMatrix) (loc : Coord) :
    ∀ (l : List Item) (st : Option ℚ × Option Item) (x : Item),
      (nearestLoop matrix loc l st).2 = some x →
      st.2 = some x
      ∨ ∃ y ∈ l, ∃ res, matrix loc (coordOf y) = some res ∧ x = withDist y res := by
  intro l
  induction l with
  | nil => intro st x h; exact Or.inl h
  | cons r rest ih =>
      intro st x h
      rw [nearestLoop_cons] at h
      rcases ih _ x h with hy | ⟨y, hy, res, hres, hx⟩
      · cases hm : matrix loc (coordOf r) with
        | none =>
            simp only [hm] at hy
            exact Or.inl hy
        | some res =>
            simp only [hm] at hy
            cases hst : st.1 with
            | none =>
                simp only [hst, Option.some.injEq] at hy
                exact Or.inr ⟨r, List.mem_cons_self r rest, res, hm, hy.symm⟩
            | some m =>
                simp only [hst] at hy
                by_cases hlt : res.distance_km < m
                · rw [if_pos hlt] at hy
                  simp only [Option.some.injEq] at hy
                  exact Or.inr ⟨r, List.mem_cons_self r rest, res, hm, hy.symm⟩
                · rw [if_neg hlt] at hy
                  exact Or.inl hy
      · exact Or.inr ⟨y, List.mem_cons_of_mem r hy, res, hres, hx⟩

theorem find_aux_struct (matrix : GeoMatrix) (loc : Coord) (M rs : List Item) (r : Item)
    (hsub : ∀ y ∈ M, y ∈ rs)
    (h : (if M.isEmpty then none else (nearestLoop matrix loc M (none, none)).2) = some r) :
    ∃ y ∈ rs, ∃ res, matrix loc (coordOf y) = some res ∧ r = withDist y res := by
  by_cases hE : M.isEmpty
  · rw [if_pos hE] at h; cases h
  · rw [if_neg hE] at h
    rcases nearestLoop_struct matrix loc M (none, none) r h with hy | ⟨y, hy, res, hres, hx⟩
    · cases hy
    · exact ⟨y, hsub y hy, res, hres, hx⟩

theorem find_nearest_struct (matrix : GeoMatrix) (loc : Coord) (rs : List Item)
    (mt : String) (r : Item) (h : _find_nearest_restaurant matrix loc rs mt = some r) :
    ∃ y ∈ rs, ∃ res, matrix loc (coordOf y) = some res ∧ r = withDist y res := by
  rw [find_nearest_eq] at h
  refine find_aux_struct matrix loc _ rs r ?_ h
  intro y hy
  by_cases hE : (rs.filter (fun x => x.meal_type == some mt && x.coordinates.isSome)).isEmpty
  · rw [if_pos hE] at hy
    exact List.mem_of_mem_filter hy
  · rw [if_neg hE] at hy
    exact List.mem_of_mem_filter hy

/-- Day-walk chronology invariant: the clock is nonnegative, every recorded
time is between 0 and the clock, and recorded times are non-decreasing. -/
def ChronoInv (st : SimState) : Prop :=
  0 ≤ st.t
  ∧ (∀ x ∈ st.sched, ∃ q, x.scheduled_time = some q ∧ 0 ≤ q ∧ q ≤ st.t)
  ∧ List.Chain' (· ≤ ·) (st.sched.map (fun i => i.scheduled_time.getD 0))

theorem ChronoInv_append (st : SimState) (x : Item) (q t' : ℚ) (used' : List String)
    (hst : ChronoInv st) (hx : x.scheduled_time = some q)
    (hq : st.t ≤ q) (ht' : q ≤ t') :
    ChronoInv ⟨st.sched ++ [x], t', used'⟩ := by
  obtain ⟨h0, hmem, hchain⟩ := hst
  have hq0 : 0 ≤ q := le_trans h0 hq
  refine ⟨le_trans hq0 ht', ?_, ?_⟩
  · intro z hz
    rw [List.mem_append] at hz
    rcases hz with hz | hz
    · obtain ⟨qz, hqz, hz0, hzt⟩ := hmem z hz
      exact ⟨qz, hqz, hz0, le_trans hzt (le_trans hq ht')⟩
    · rw [List.mem_singleton] at hz
      subst hz
      exact ⟨q, hx, hq0, ht'⟩
  · rw [List.map_append]
    rw [List.chain'_append]
    refine ⟨hchain, by simp, ?_⟩
    intro v hv w hw
    simp only [List.map_cons, List.map_nil, List.head?_cons, Option.mem_def,
      Option.some.injEq] at hw
    subst hw
    rw [List.getLast?_map] at hv
    simp only [Option.mem_def, Option.map_eq_some'] at hv
    obtain ⟨z, hz, hzv⟩ := hv
    have hzmem : z ∈ st.sched := List.mem_of_mem_getLast? hz
    obtain ⟨qz, hqz, _, hzt⟩ := hmem z hzmem
    rw [← hzv, hqz]
    simpa [hx] using le_trans hzt hq

/-- Any travel segment attached to the item has nonnegative duration. -/
def TravelOK (a : Item) : Prop :=
  ∀ tr, a.travel_to_next = some tr → 0 ≤ tr.duration_h

theorem calcFromRest_duration_nonneg (matrix : GeoMatrix)
    (HM : ∀ x y r, matrix x y = some r → 0 ≤ r.duration_h)
    (rc nc : Coord) (tr : Travel)
    (h : _calculate_travel_from_restaurant matrix rc nc = some tr) :
    0 ≤ tr.duration_h := by
  unfold _calculate_travel_from_restaurant at h
  split at h
  · split at h
    · cases h
    · rw [Option.some.injEq] at h
      subst h
      exact HM _ _ _ (by assumption)
  · cases h


theorem maybeInsertMeal_eq_of_no_loc (matrix : GeoMatrix) (restos : List Item)
    (acc : Option Coord) (a : Item) (isLast : Bool) (next? : Option Item) (st : SimState)
    (hloc : a.coordinates.orElse (fun _ => acc) = none) :
    maybeInsertMeal matrix restos acc a isLast next? st = st := by
  simp only [maybeInsertMeal, hloc]
  split <;> rfl

theorem maybeInsertMeal_eq_of_find_none (matrix : GeoMatrix) (restos : List Item)
    (acc : Option Coord) (a : Item) (isLast : Bool) (next? : Option Item) (st : SimState)
    (loc : Coord) (hloc : a.coordinates.orElse (fun _ => acc) = some loc)
    (hfind : _find_nearest_restaurant matrix loc
      (restos.filter (fun x => !st.used.contains x.name))
      (if isLunchTime (pyMod st.t 24) st.sched then "lunch" else "dinner") = none) :
    maybeInsertMeal matrix restos acc a isLast next? st = st := by
  simp only [maybeInsertMeal, hloc, hfind]
  split <;> rfl

/-- The meal block preserves the chronology invariant when the oracle only
reports nonnegative durations and the restaurant pool carries no preset
travel segments. -/
theorem maybeInsertMeal_chrono (matrix : GeoMatrix) (restos : List Item)
    (acc : Option Coord) (a : Item) (isLast : Bool) (next? : Option Item) (st : SimState)
    (HM : ∀ x y r, matrix x y = some r → 0 ≤ r.duration_h)
    (hrestos : ∀ rr ∈ restos, rr.travel_to_next = none)
    (hst : ChronoInv st) :
    ChronoInv (maybeInsertMeal matrix restos acc a isLast next? st) := by
  by_cases hElig : (isLunchTime (pyMod st.t 24) st.sched
      || isDinnerTime (pyMod st.t 24) isLast st.sched) = true
  · cases hloc : a.coordinates.orElse (fun _ => acc) with
    | none => rw [maybeInsertMeal_eq_of_no_loc matrix restos acc a isLast next? st hloc]; exact hst
    | some loc =>
        cases hfind : _find_nearest_restaurant matrix loc
            (restos.filter (fun x => !st.used.contains x.name))
            (if isLunchTime (pyMod st.t 24) st.sched then "lunch" else "dinner") with
        | none =>
            rw [maybeInsertMeal_eq_of_find_none matrix restos acc a isLast next? st loc hloc hfind]
            exact hst
        | some r =>
            obtain ⟨y, hy, res, hres, hr⟩ := find_nearest_struct _ _ _ _ _ hfind
            have hDist : r.distance_from_current
                = some ⟨res.distance_km, pyInt (res.duration_h * 60)⟩ := by
              rw [hr]; rfl
            have hTrav : r.travel_to_next = none := by
              rw [hr]
              exact hrestos y (List.mem_of_mem_filter hy)
            rw [maybeInsertMeal_insert_eq matrix restos acc a isLast next? st loc r _
              hElig hloc hfind hDist hTrav]
            have hmins : (0 : ℚ) ≤ ((pyInt (res.duration_h * 60) : ℤ) : ℚ) / 60 := by
              have h1 : 0 ≤ res.duration_h := HM _ _ _ hres
              have h2 : 0 ≤ pyInt (res.duration_h * 60) :=
                pyInt_nonneg _ (by positivity)
              positivity
            cases next? with
            | none =>
                refine ChronoInv_append st _
                  (st.t + ((pyInt (res.duration_h * 60) : ℤ) : ℚ) / 60) _ _ hst rfl
                  (by linarith) ?_
                norm_num
                linarith
            | some nxt =>
                cases hnc : nxt.coordinates with
                | none =>
                    refine ChronoInv_append st _
                      (st.t + ((pyInt (res.duration_h * 60) : ℤ) : ℚ) / 60) _ _ hst rfl
                      (by linarith) ?_
                    simp only [hnc]
                    norm_num
                    linarith
                | some nc =>
                    cases hrc : r.coordinates with
                    | none =>
                        refine ChronoInv_append st _
                          (st.t + ((pyInt (res.duration_h * 60) : ℤ) : ℚ) / 60) _ _ hst rfl
                          (by linarith) ?_
                        simp only [hnc, hrc]
                        norm_num
                        linarith
                    | some rc =>
                        cases hcv : _calculate_travel_from_restaurant matrix rc nc with
                        | none =>
                            refine ChronoInv_append st _
                              (st.t + ((pyInt (res.duration_h * 60) : ℤ) : ℚ) / 60) _ _ hst rfl
                              (by linarith) ?_
                            simp only [hnc, hrc, hcv]
                            norm_num
                            linarith
                        | some tr =>
                            have htr : 0 ≤ tr.duration_h :=
                              calcFromRest_duration_nonneg matrix HM rc nc tr hcv
                            refine ChronoInv_append st _
                              (st.t + ((pyInt (res.duration_h * 60) : ℤ) : ℚ) / 60) _ _ hst rfl
                              (by linarith) ?_
                            simp only [hnc, hrc, hcv]
                            by_cases h2 : tr.duration_h ≤ 2
                            · simp only [h2, if_true]
                              linarith
                            · simp only [h2, if_false]
                              norm_num
                              linarith
  · simp only [Bool.or_eq_true, not_or, Bool.not_eq_true] at hElig
    rw [maybeInsertMeal_no_window matrix restos acc a isLast next? st hElig.1 hElig.2]
    exact hst

/-- For a nonnegative clock value, reading the formatted timestamp back as
absolute hours is exactly truncation of the clock to whole minutes. -/
theorem absHours_eq (t : ℚ) (ht : 0 ≤ t) :
    absHoursOfTime t = (⌊60 * t⌋ : ℚ) / 60 := by
  have hfl : ((⌊t⌋ : ℤ) : ℚ) ≤ t := Int.floor_le t
  have hm1 : pyMod t 1 = t - ((⌊t⌋ : ℤ) : ℚ) := by
    unfold pyMod
    norm_num
  have hmin : pyInt (pyMod t 1 * 60) = ⌊60 * t⌋ - 60 * ⌊t⌋ := by
    rw [hm1]
    unfold pyInt
    rw [if_pos (by nlinarith)]
    have h2 : (t - ((⌊t⌋ : ℤ) : ℚ)) * 60 = 60 * t - ((60 * ⌊t⌋ : ℤ) : ℚ) := by
      push_cast
      ring
    rw [h2, Int.floor_sub_int]
  simp only [absHoursOfTime, formatParts]
  by_cases h24 : 24 ≤ t
  · rw [if_pos h24]
    have h240 : (0 : ℚ) ≤ t / 24 := by positivity
    have hq : ((⌊t / 24⌋ : ℤ) : ℚ) ≤ t / 24 := Int.floor_le _
    have hmod24 : pyMod t 24 = t - ((24 * ⌊t / 24⌋ : ℤ) : ℚ) := by
      unfold pyMod
      push_cast
      ring
    have hmod24nn : (0 : ℚ) ≤ t - ((24 * ⌊t / 24⌋ : ℤ) : ℚ) := by
      push_cast
      nlinarith
    have hdisp : pyInt (pyMod t 24) = ⌊t⌋ - 24 * ⌊t / 24⌋ := by
      rw [hmod24]
      unfold pyInt
      rw [if_pos hmod24nn, Int.floor_sub_int]
    have hdiv : pyInt (t / 24) = ⌊t / 24⌋ := by
      unfold pyInt
      rw [if_pos h240]
    dsimp only
    rw [hdiv, hdisp, hmin]
    push_cast
    ring
  · rw [if_neg h24]
    have hat : pyInt t = ⌊t⌋ := by
      unfold pyInt
      rw [if_pos ht]
    dsimp only
    rw [hat, hmin]
    push_cast
    ring

theorem absHours_mono (t t' : ℚ) (ht : 0 ≤ t) (h : t ≤ t') :
    absHoursOfTime t ≤ absHoursOfTime t' := by
  rw [absHours_eq t ht, absHours_eq t' (le_trans ht h)]
  have hf : ⌊60 * t⌋ ≤ ⌊60 * t'⌋ := Int.floor_le_floor (by linarith)
  have hc : ((⌊60 * t⌋ : ℤ) : ℚ) ≤ ((⌊60 * t'⌋ : ℤ) : ℚ) := by exact_mod_cast hf
  linarith

theorem chain_absHours :
    ∀ (l : List ℚ), (∀ x ∈ l, 0 ≤ x) → List.Chain' (· ≤ ·) l →
      List.Chain' (· ≤ ·) (l.map absHoursOfTime) := by
  intro l
  induction l with
  | nil => intro _ _; simp
  | cons a tl ih =>
      intro hmem hch
      cases tl with
      | nil => simp
      | cons b tl2 =>
          rw [List.chain'_cons] at hch
          rw [List.map_cons, List.map_cons, List.chain'_cons]
          constructor
          · exact absHours_mono a b (hmem a (List.mem_cons_self _ _)) hch.1
          · have := ih (fun x hx => hmem x (List.mem_cons_of_mem _ hx)) hch.2
            rw [List.map_cons] at this
            exact this

theorem travelPair_TravelOK (matrix : GeoMatrix) (a b : Item)
    (HM : ∀ x y r, matrix x y = some r → 0 ≤ r.duration_h)
    (ha : TravelOK a) : TravelOK (travelPair matrix a b) := by
  intro tr htr
  unfold travelPair at htr
  cases hca : a.coordinates with
  | none =>
      simp only [hca] at htr
      exact ha tr htr
  | some ca =>
      cases hcb : b.coordinates with
      | none =>
          simp only [hca, hcb] at htr
          exact ha tr htr
      | some cb =>
          simp only [hca, hcb] at htr
          cases hm : matrix ca cb with
          | none =>
              simp only [hm] at htr
              exact ha tr htr
          | some r =>
              simp only [hm] at htr
              by_cases hd : 100 < r.distance_km
              · rw [if_pos hd] at htr
                exact ha tr htr
              · rw [if_neg hd] at htr
                simp only [Item.travel_to_next] at htr
                rw [Option.some.injEq] at htr
                subst htr
                exact HM _ _ _ hm

theorem calc_travel_TravelOK (matrix : GeoMatrix)
    (HM : ∀ x y r, matrix x y = some r → 0 ≤ r.duration_h) :
    ∀ (l : List Item), (∀ x ∈ l, TravelOK x) →
      ∀ x ∈ _calculate_travel_times matrix l, TravelOK x := by
  intro l
  induction l with
  | nil => intro _ x hx; cases hx
  | cons a tl ih =>
      intro hl x hx
      cases tl with
      | nil =>
          simp only [_calculate_travel_times] at hx
          rw [List.mem_singleton] at hx
          rw [hx]
          exact hl a (List.mem_cons_self _ _)
      | cons b rest =>
          simp only [_calculate_travel_times] at hx
          rw [List.mem_cons] at hx
          rcases hx with hx | hx
          · subst hx
            exact travelPair_TravelOK matrix a b HM (hl a (List.mem_cons_self _ _))
          · exact ih (fun z hz => hl z (List.mem_cons_of_mem _ hz)) x hx

theorem dineStep_chrono (matrix : GeoMatrix) (restos : List Item) (acc : Option Coord)
    (a : Item) (isLast : Bool) (next? : Option Item) (st : SimState)
    (HM : ∀ x y r, matrix x y = some r → 0 ≤ r.duration_h)
    (hrestos : ∀ rr ∈ restos, rr.travel_to_next = none)
    (ha : TravelOK a) (hst : ChronoInv st) :
    ChronoInv (dineStep matrix restos acc a isLast next? st) := by
  have hpd : 0 ≤ _parse_duration (a.duration.getD "2 hours") := parse_duration_nonneg _
  rw [dineStep_decomp]
  apply maybeInsertMeal_chrono _ _ _ _ _ _ _ HM hrestos
  cases htr : a.travel_to_next with
  | none =>
      simp only [htr]
      exact ChronoInv_append st _ st.t _ _ hst rfl le_rfl (by linarith)
  | some tr =>
      have h0 : 0 ≤ tr.duration_h := ha tr htr
      simp only [htr]
      by_cases h2 : 2 < tr.duration_h
      · rw [if_pos h2]
        exact ChronoInv_append st _ st.t _ _ hst rfl le_rfl (by linarith)
      · rw [if_neg h2]
        exact ChronoInv_append st _ st.t _ _ hst rfl le_rfl (by linarith)

theorem integrateDay_chrono (matrix : GeoMatrix) (restos : List Item) (acc : Option Coord)
    (HM : ∀ x y r, matrix x y = some r → 0 ≤ r.duration_h)
    (hrestos : ∀ rr ∈ restos, rr.travel_to_next = none) :
    ∀ (l : List Item) (st : SimState), (∀ x ∈ l, TravelOK x) → ChronoInv st →
      ChronoInv (integrateDay matrix restos acc l st) := by
  intro l
  induction l with
  | nil => intro st _ hst; exact hst
  | cons a rest ih =>
      intro st hl hst
      simp only [integrateDay]
      exact ih _ (fun x hx => hl x (List.mem_cons_of_mem _ hx))
        (dineStep_chrono _ _ _ _ _ _ _ HM hrestos (hl a (List.mem_cons_self _ _)) hst)

/-- What "a day schedule is chronological" means on the produced data: every
stop has a recorded (nonnegative) time and the recorded times are
non-decreasing along the list. -/
def SchedOK (l : List Item) : Prop :=
  (∀ x ∈ l, ∃ q, x.scheduled_time = some q ∧ 0 ≤ q)
    ∧ List.Chain' (· ≤ ·) (l.map (fun i => i.scheduled_time.getD 0))

theorem schedOK_of_chrono (st : SimState) (h : ChronoInv st) : SchedOK st.sched := by
  refine ⟨?_, h.2.2⟩
  intro x hx
  rcases h.2.1 x hx with ⟨q, hq1, hq2, _⟩
  exact ⟨q, hq1, hq2⟩

theorem chronoInv_init (u : List String) : ChronoInv ⟨[], 9, u⟩ := by
  refine ⟨by norm_num, ?_, ?_⟩
  · intro x hx
    cases hx
  · simp

theorem dining_foldl_ok (matrix : GeoMatrix) (restos : List Item) (acc : Option Coord)
    (HM : ∀ x y r, matrix x y = some r → 0 ≤ r.duration_h)
    (hrestos : ∀ rr ∈ restos, rr.travel_to_next = none) :
    ∀ (days : List (List Item)), (∀ day ∈ days, ∀ x ∈ day, x.travel_to_next = none) →
    ∀ (accu : List (List Item) × List String), (∀ s ∈ accu.1, SchedOK s) →
    ∀ s ∈ (days.foldl
        (fun (accu : List (List Item) × List String) day =>
          let day1 := _calculate_travel_times matrix day
          let st := integrateDay matrix restos acc day1 ⟨[], 9, accu.2⟩
          (accu.1 ++ [st.sched], st.used)) accu).1, SchedOK s := by
  intro days
  induction days with
  | nil => intro _ accu hacc s hs; exact hacc s hs
  | cons d ds ih =>
      intro hdays accu hacc
      rw [List.foldl_cons]
      apply ih (fun day hday => hdays day (List.mem_cons_of_mem _ hday))
      intro s hs
      dsimp only at hs
      rw [List.mem_append] at hs
      rcases hs with hs | hs
      · exact hacc s hs
      · rw [List.mem_singleton] at hs
        subst hs
        apply schedOK_of_chrono
        apply integrateDay_chrono matrix restos acc HM hrestos _ _ _ (chronoInv_init _)
        apply calc_travel_TravelOK matrix HM
        intro x hx tr htr
        rw [hdays d (List.mem_cons_self _ _) x hx] at htr
        cases htr

/-- C2: within every day schedule produced by `_integrate_dining`, the stops
appear in non-decreasing order of scheduled time, where each recorded
timestamp (including the `"Day+N HH:MM"` overflow form) is read back as an
absolute count of hours from the day's start (`absHoursOfTime` of the clock
value the formatter prints).  Hypotheses: the routing oracle reports only
nonnegative travel durations, and the input attractions and restaurant pool
carry no preset `travel_to_next` segments (they are attached only by
`_calculate_travel_times`, as in the pipeline). -/
theorem C2_schedule_chronological (matrix : GeoMatrix) (daily : List (List Item))
    (restos : List Item) (acc : Option Coord)
    (HM : ∀ x y r, matrix x y = some r → 0 ≤ r.duration_h)
    (hdays : ∀ day ∈ daily, ∀ x ∈ day, x.travel_to_next = none)
    (hrestos : ∀ rr ∈ restos, rr.travel_to_next = none) :
    ∀ sched ∈ _integrate_dining matrix daily restos acc,
      List.Chain' (· ≤ ·)
        (sched.map (fun i => absHoursOfTime (i.scheduled_time.getD 0))) := by
  intro sched hs
  have hok : SchedOK sched := by
    apply dining_foldl_ok matrix restos acc HM hrestos daily hdays ([], [])
      (fun s hs' => absurd hs' (List.not_mem_nil s))
    exact hs
  have hmap : sched.map (fun i => absHoursOfTime (i.scheduled_time.getD 0))
      = (sched.map (fun i => i.scheduled_time.getD 0)).map absHoursOfTime := by
    rw [List.map_map]
    rfl
  rw [hmap]
  apply chain_absHours
  · intro x hx
    rcases List.mem_map.mp hx with ⟨i, hi, rfl⟩
    rcases hok.1 i hi with ⟨q, hq1, hq2⟩
    rw [hq1]
    exact hq2
  · exact hok.2

def c2w : Item := { name := "Garden Walk", duration := some "1 hour", coordinates := some (0, 0) }

theorem c2_eval : _integrate_dining (fun _ _ => none) [[c2w]] [] none
    = [[{ c2w with scheduled_time := some (9 : ℚ) }]] := by
  norm_num [_integrate_dining, _calculate_travel_times, travelPair, integrateDay, dineStep,
    maybeInsertMeal, isLunchTime, isDinnerTime, hasMealType, pyMod, pyInt,
    _find_nearest_restaurant, nearestLoop, withDist, c2w, pd_one_hour]

theorem C2_schedule_chronological_witness :
    List.Chain' (· ≤ ·)
      (([{ c2w with scheduled_time := some (9 : ℚ) }] : List Item).map
        (fun i => absHoursOfTime (i.scheduled_time.getD 0))) := by
  apply C2_schedule_chronological (fun _ _ => none) [[c2w]] [] none
  · intro x y r h
    cases h
  · intro day hday x hx
    rw [List.mem_singleton] at hday
    subst hday
    rw [List.mem_singleton] at hx
    rw [hx]
    rfl
  · intro rr h
    cases h
  · rw [c2_eval]
    exact List.mem_singleton_self _
